import Mathlib

/- Verification of the persistence and reconciliation layer of the `kit`
point-of-sale repository (src/database.py and the receipt renderer in
src/system.py), as a shallow embedding.

Conventions of the embedding:
* SQLite tables are lists of typed rows in insertion order.
* Monetary REAL columns are rationals; INTEGER quantities are integers.
* `datetime.now()` strings are threaded in as explicit parameters.
* Code that can raise is modelled with `Except Unit`; a swallowed exception
  (`except ...: pass`) is an `Except` value that is discarded.
* Text is modelled as `List Char`; character classes of Python's `re` and
  `str.strip` are modelled over ASCII (receipts contain no exotic whitespace
  or non-ASCII digits). -/

namespace Kit

/-- A piece of text, the list of its characters. -/
abbrev Line := List Char

instance {ε α} [DecidableEq ε] [DecidableEq α] : DecidableEq (Except ε α) := fun a b =>
  match a, b with
  | .ok x, .ok y =>
    if h : x = y then .isTrue (by rw [h]) else .isFalse (by simp [h])
  | .error x, .error y =>
    if h : x = y then .isTrue (by rw [h]) else .isFalse (by simp [h])
  | .ok _, .error _ => .isFalse (by simp)
  | .error _, .ok _ => .isFalse (by simp)

/-- `\d` of Python's `re` (ASCII model). -/
def pyDigit (c : Char) : Bool := c.isDigit

/-- `\s` of Python's `re` and the blanks stripped by `str.strip` (ASCII model). -/
def pySpace (c : Char) : Bool :=
  c == ' ' || c == '\t' || c == '\n' || c == '\x0b' || c == '\x0c' || c == '\r'

/-- The decimal digit character for `n < 10`. -/
def digitChar (n : Nat) : Char := Char.ofNat (48 + n)

/-- Fuel-driven decimal printer (the fuel makes it structurally recursive,
so that it evaluates inside the kernel). -/
def natDigitsAux : Nat → Nat → Line
  | 0, _ => []
  | f + 1, n =>
    if n < 10 then [digitChar n] else natDigitsAux f (n / 10) ++ [digitChar (n % 10)]

/-- Decimal digits of a natural number, most significant first: Python `str(n)`. -/
def natDigits (n : Nat) : Line := natDigitsAux (n + 1) n

/-- Python `str(i)` for an integer. -/
def intRepr (i : Int) : Line :=
  match i with
  | .ofNat n => natDigits n
  | .negSucc n => '-' :: natDigits (n + 1)

/-- Value of a digit string, as read by Python `int` on `\d+` matches. -/
def digitsVal (l : Line) : Nat := l.foldl (fun a c => 10 * a + (c.toNat - 48)) 0

/-- An order line item as passed around the ledger API:
`(code, name, quantity, price, item_total)` (database.py, save_order). -/
structure Item where
  code : Line
  name : Line
  qty : Int
  price : ℚ
  total : ℚ
deriving Repr, DecidableEq

/-- A row of the `orders` table. -/
structure OrderRow where
  order_id : Nat
  date_time : String
  total : ℚ
  paid : ℚ
  change : ℚ
  employee : Option Line
  receipt_filename : Option String
deriving Repr, DecidableEq

/-- A row of the `order_items` table (the surrogate `order_item_id` is its
position and is not modelled). -/
structure ItemRow where
  order_id : Nat
  code : Line
  name : Line
  quantity : Int
  price : ℚ
  total : ℚ
deriving Repr, DecidableEq

/-- A row of the `sales` aggregate table (`code` is its PRIMARY KEY). -/
structure SalesRow where
  code : Line
  name : Line
  total_quantity : Int
  total_revenue : ℚ
  last_sold : Option String
deriving Repr, DecidableEq

/-- The SQLite database state: the three transactional tables and the next
AUTOINCREMENT value for `orders.order_id`. -/
structure DB where
  nextOrderId : Nat
  orders : List OrderRow
  items : List ItemRow
  sales : List SalesRow
deriving Repr, DecidableEq

/-- database.py `_increment_sales` (lines 469-499): per item, update the
`sales` row of the same code if present, else insert a fresh row. -/
def increment_sales (items : List Item) (when : String) (sales : List SalesRow) :
    List SalesRow :=
  items.foldl (fun s it =>
    if s.any (fun r => r.code == it.code) then
      s.map (fun r =>
        if r.code == it.code then
          { r with total_quantity := r.total_quantity + it.qty,
                   total_revenue := r.total_revenue + it.total,
                   last_sold := some when }
        else r)
    else s ++ [⟨it.code, it.name, it.qty, it.total, some when⟩]) sales

/-- The `order_items` rows inserted for one order. -/
def itemRowsFor (oid : Nat) (items : List Item) : List ItemRow :=
  items.map (fun it => ⟨oid, it.code, it.name, it.qty, it.price, it.total⟩)

/-- The `orders`-insert step of `save_order`: the INSERT succeeds unless a row
already holds the (non-NULL) key; on the resulting IntegrityError the existing
row's id is looked up; `none` is the re-raised error when that fails.
Gives the resulting `orders` rows, the resolved order id, and the next
AUTOINCREMENT value. -/
def resolveInsert (db : DB) (total paid change : ℚ) (employee : Option Line)
    (receipt_filename : Option String) (dt : String) :
    Option (List OrderRow × Nat × Nat) :=
  match receipt_filename with
  | none =>
    some (db.orders ++ [⟨db.nextOrderId, dt, total, paid, change, employee, none⟩],
          db.nextOrderId, db.nextOrderId + 1)
  | some k =>
    if db.orders.any (fun r => r.receipt_filename == some k) then
      match db.orders.find? (fun r => r.receipt_filename == some k) with
      | some row => some (db.orders, row.order_id, db.nextOrderId)
      | none => none
    else
      some (db.orders ++ [⟨db.nextOrderId, dt, total, paid, change, employee, some k⟩],
            db.nextOrderId, db.nextOrderId + 1)

/-- database.py `save_order` (lines 317-357), with the `_increment_sales`
side effect abstracted as `incr` so that arbitrary failures of the aggregate
update can be quantified over; `save_order` instantiates `incr` with the real
update. The UNIQUE constraint on `orders.receipt_filename` is the one
integrity constraint that can fire on this insert (NULL keys never collide). -/
def save_order_with (incr : List SalesRow → Except Unit (List SalesRow))
    (db : DB) (items : List Item) (total paid change : ℚ)
    (employee : Option Line) (receipt_filename : Option String) (dt : String) :
    Except Unit (DB × Nat) :=
  match resolveInsert db total paid change employee receipt_filename dt with
  | none => .error ()
  | some (orders', oid, next') =>
    let sales' :=
      match incr db.sales with
      | .ok s => s
      | .error _ => db.sales
    .ok (⟨next', orders', db.items ++ itemRowsFor oid items, sales'⟩, oid)

/-- database.py `save_order` with its real best-effort aggregate update. -/
def save_order (db : DB) (items : List Item) (total paid change : ℚ)
    (employee : Option Line) (receipt_filename : Option String) (dt : String) :
    Except Unit (DB × Nat) :=
  save_order_with (fun s => .ok (increment_sales items dt s))
    db items total paid change employee receipt_filename dt

/-- database.py `save_receipt` (lines 284-314): insert the order without
employee or receipt filename, then best-effort update the aggregates. -/
def save_receipt_db (db : DB) (items : List Item) (total paid change : ℚ)
    (dt : String) : DB :=
  ⟨db.nextOrderId + 1,
   db.orders ++ [⟨db.nextOrderId, dt, total, paid, change, none, none⟩],
   db.items ++ itemRowsFor db.nextOrderId items,
   increment_sales items dt db.sales⟩

/-- Number of `orders` rows holding the receipt key `k`. -/
def countKey (db : DB) (k : String) : Nat :=
  (db.orders.filter (fun r => r.receipt_filename == some k)).length

/-- The `(code, name)` group keys of `order_items`, in first-appearance order
(models the `GROUP BY code, name` result rows; SQLite leaves the output order
unspecified and none of the verified facts depend on it). -/
def groupKeys (items : List ItemRow) : List (Line × Line) :=
  items.foldl (fun acc it =>
    if acc.contains (it.code, it.name) then acc else acc ++ [(it.code, it.name)]) []

/-- `MAX((SELECT date_time FROM orders WHERE ...))` over one group: the largest
parent-order timestamp, NULLs (orphan items) skipped. -/
def groupLastDt (orders : List OrderRow) (group : List ItemRow) : Option String :=
  group.foldl (fun acc it =>
    match (orders.find? (fun o => o.order_id == it.order_id)).map (·.date_time) with
    | none => acc
    | some d =>
      match acc with
      | none => some d
      | some m => some (if m < d then d else m)) none

/-- database.py `update_sales_from_orders` (lines 502-527): clear `sales`,
then insert one row per `(code, name)` group; an insert violating the
`sales.code` PRIMARY KEY is skipped (`except ...: continue`). Returns the
number of grouped rows (`len(rows)`). -/
def update_sales_from_orders (db : DB) : DB × Nat :=
  let rows := (groupKeys db.items).map (fun k =>
    let group := db.items.filter (fun it => it.code == k.1 && it.name == k.2)
    (k.1, k.2, (group.map (·.quantity)).sum, (group.map (·.total)).sum,
     groupLastDt db.orders group))
  let sales' := rows.foldl (fun acc r =>
    if acc.any (fun s => s.code == r.1) then acc
    else acc ++ [⟨r.1, r.2.1, r.2.2.1, r.2.2.2.1, r.2.2.2.2⟩]) []
  (⟨db.nextOrderId, db.orders, db.items, sales'⟩, rows.length)

/-- The distinct product codes of `order_items`, in first-appearance order. -/
def distinctCodes (items : List ItemRow) : List Line :=
  items.foldl (fun acc it =>
    if acc.contains it.code then acc else acc ++ [it.code]) []

/-- A ledger whose single code "AR" appears under two display names. -/
def exDB : DB :=
  ⟨2, [⟨1, "2024-01-01 10:00:00", 195, 195, 0, none, none⟩],
   [⟨1, "AR".data, "Adobo Rice Bowl".data, 1, 65, 65⟩,
    ⟨1, "AR".data, "Adobo Bowl".data, 2, 65, 130⟩], []⟩

/-- A freshly created database (AUTOINCREMENT starts at 1). -/
def emptyDB : DB := ⟨1, [], [], []⟩


/-- Leading and trailing blanks removed: Python `str.strip()` (ASCII model). -/
def asciiStrip (l : Line) : Line :=
  ((l.dropWhile pySpace).reverse.dropWhile pySpace).reverse

/-- Python `str.startswith` on our text model. -/
def startsWithL (pre l : Line) : Bool := pre.isPrefixOf l

/-- Python `s.split(':', 1)[1]`: the text after the first colon (every caller
guards with a `startswith` check that guarantees a colon is present). -/
def afterColon (l : Line) : Line := (l.dropWhile (fun c => !(c == ':'))).drop 1

/-- The chained `.replace('$','').replace('₱','').replace(',','')` used on
every parsed amount (order of the removals is immaterial). -/
def stripCur (l : Line) : Line :=
  l.filter (fun c => !(c == ',' || c == '$' || c == '₱'))

/-- Python `float()` on the plain decimal strings this system produces:
optional blanks, optional sign, digits with an optional fractional part,
at least one digit. The exotic accepted forms (exponents, underscores,
inf/nan) never occur in receipt amounts and are modelled as failures. -/
def pyFloat (l : Line) : Option ℚ :=
  let t := asciiStrip l
  let st : Int × Line :=
    match t with
    | c :: r => if c == '-' then (-1, r) else if c == '+' then (1, r) else (1, t)
    | [] => (1, [])
  let ip := st.2.takeWhile pyDigit
  let t1 := st.2.dropWhile pyDigit
  match t1 with
  | [] => if ip.isEmpty then none else some (mkRat (st.1 * (digitsVal ip : Int)) 1)
  | '.' :: r =>
    let fp := r.takeWhile pyDigit
    if (r.dropWhile pyDigit).isEmpty && !(ip.isEmpty && fp.isEmpty) then
      some (mkRat (st.1 * ((digitsVal ip * 10 ^ fp.length + digitsVal fp : Nat) : Int))
        (10 ^ fp.length))
    else none
  | _ => none

/-- The captured groups of the item-line regular expression
(quantity digits, name, code, unit price, line total). -/
structure ItemGroups where
  g1 : Line
  g2 : Line
  g3 : Line
  g4 : Line
  g5 : Line
deriving Repr, DecidableEq

/-- The amount group `([0-9,]+\.?[0-9]*)`, by maximal munch (equivalent to the
backtracking semantics: the regex pieces that follow can never consume a
character of these classes). Gives the group and the rest of the line. -/
def amountGroup (l : Line) : Option (Line × Line) :=
  let a := l.takeWhile (fun c => pyDigit c || c == ',')
  let r := l.dropWhile (fun c => pyDigit c || c == ',')
  if a.isEmpty then none
  else
    match r with
    | '.' :: r2 => some (a ++ '.' :: r2.takeWhile pyDigit, r2.dropWhile pyDigit)
    | _ => some (a, r)

/-- The optional currency symbol `[\$₱]?` (consuming it when present is
equivalent to backtracking: the following amount group accepts neither). -/
def dropCurSym (l : Line) : Line :=
  match l with
  | c :: r => if c == '$' || c == '₱' then r else l
  | [] => []

/-- The regex tail `([^)]+)\)\s+@\s*[\$₱]?(amt)\s*=\s*[\$₱]?(amt)$` applied to
the text after the opening parenthesis; each greedy piece is followed by a
token outside its class, so maximal munch realizes the backtracking search.
Gives groups 3, 4 and 5. -/
def tailAfterParen (l : Line) : Option (Line × Line × Line) :=
  let g3 := l.takeWhile (fun c => !(c == ')'))
  let r := l.dropWhile (fun c => !(c == ')'))
  if g3.isEmpty then none
  else
    match r with
    | ')' :: r1 =>
      if (r1.takeWhile pySpace).isEmpty then none
      else
        match r1.dropWhile pySpace with
        | '@' :: r3 =>
          match amountGroup (dropCurSym (r3.dropWhile pySpace)) with
          | some (g4, r4) =>
            (match r4.dropWhile pySpace with
             | '=' :: r5 =>
               match amountGroup (dropCurSym (r5.dropWhile pySpace)) with
               | some (g5, r6) => if r6.isEmpty then some (g3, g4, g5) else none
               | none => none
             | _ => none)
          | none => none
        | _ => none
    | _ => none

/-- One attempt of the lazy split: `\s+\(` followed by the tail, at the
current suffix. -/
def attemptAt (l : Line) : Option (Line × Line × Line) :=
  if (l.takeWhile pySpace).isEmpty then none
  else
    match l.dropWhile pySpace with
    | '(' :: u => tailAfterParen u
    | _ => none

/-- The lazy group `(.*?)` : try the shortest split first, extending one
character at a time; `.` does not cross a newline. -/
def lazyLoop (g2rev : Line) (l : Line) : Option (Line × Line × Line × Line) :=
  match attemptAt l with
  | some (g3, g4, g5) => some (g2rev.reverse, g3, g4, g5)
  | none =>
    match l with
    | [] => none
    | c :: r => if c == '\n' then none else lazyLoop (c :: g2rev) r

/-- The backtracking search for `\s+(.*?)\s+\(` plus the tail: the leading
`\s+` is tried longest first and the lazy group shortest first, so every
split at or beyond the maximal blank run is explored by `lazyLoop`, and the
remaining splits (inside the run, viable only when the run is followed
directly by the parenthesis, with an empty lazy group) collapse to one extra
attempt. -/
def lazySearch (l : Line) : Option (Line × Line × Line × Line) :=
  let m := (l.takeWhile pySpace).length
  if m == 0 then none
  else
    match lazyLoop [] (l.drop m) with
    | some res => some res
    | none =>
      if 2 ≤ m then
        match l.drop m with
        | '(' :: u => (tailAfterParen u).map (fun g => ([], g.1, g.2.1, g.2.2))
        | _ => none
      else none

/-- database.py line 415: `re.match` of
`^(\d+)\s+x\s+(.*?)\s+\(([^)]+)\)\s+@\s*[\$₱]?([0-9,]+\.?[0-9]*)\s*=\s*[\$₱]?([0-9,]+\.?[0-9]*)$`
on one receipt line. -/
def itemMatch (l : Line) : Option ItemGroups :=
  let g1 := l.takeWhile pyDigit
  let r1 := l.dropWhile pyDigit
  if g1.isEmpty then none
  else if (r1.takeWhile pySpace).isEmpty then none
  else
    match r1.dropWhile pySpace with
    | 'x' :: r2 =>
      match lazySearch r2 with
      | some (g2, g3, g4, g5) => some ⟨g1, g2, g3, g4, g5⟩
      | none => none
    | _ => none

/-- database.py lines 416-424: a matched line yields
`(code, name, qty, price, total)`. The two bare `float()` calls raise a
ValueError — not caught anywhere in the importer — exactly when their group
holds no digit (it is all commas). Unmatched lines contribute nothing. -/
def lineToItem (l : Line) : Except Unit (Option Item) :=
  match itemMatch l with
  | none => .ok none
  | some g =>
    match pyFloat (stripCur g.g4), pyFloat (stripCur g.g5) with
    | some p, some t =>
      .ok (some ⟨asciiStrip g.g3, asciiStrip g.g2, (digitsVal g.g1 : Int), p, t⟩)
    | _, _ => .error ()

/-- The item lines recognized over the whole file, in order, stopping with
the ValueError of the first bad amount. -/
def collectItems : List Line → Except Unit (List Item)
  | [] => .ok []
  | L :: ls =>
    match lineToItem L with
    | .error e => .error e
    | .ok none => collectItems ls
    | .ok (some it) =>
      match collectItems ls with
      | .error e => .error e
      | .ok its => .ok (it :: its)

/-- Python `lines[-10:]`. -/
def lastN (n : Nat) (l : List Line) : List Line := l.drop (l.length - n)

/-- One step of the scalar scan (database.py lines 430-445): a line with the
prefix overwrites the accumulator — with the parsed amount, or with `None`
when its `float()` fails (that call is wrapped in try/except). -/
def scalarStep (pre : Line) (acc : Option ℚ) (L : Line) : Option ℚ :=
  if startsWithL pre L then pyFloat (stripCur (asciiStrip (afterColon L))) else acc

/-- The scan over `reversed(lines[-10:])`: because later assignments overwrite,
the earliest matching line of the window decides the final value. -/
def scanScalar (pre : Line) (window : List Line) : Option ℚ :=
  window.reverse.foldl (scalarStep pre) none

/-- The result of parsing one receipt file's lines. -/
structure Parsed where
  employee : Option Line
  items : List Item
  subtotal : Option ℚ
  paid : Option ℚ
  change : Option ℚ
deriving Repr, DecidableEq

/-- database.py lines 404-451: the parsing half of the receipt codec, over the
already-split lines of one file. The employee is the last `Employee:` line's
stripped remainder; the scalars come only from the last ten lines. -/
def parseReceiptLines (ls : List Line) : Except Unit Parsed :=
  match collectItems ls with
  | .error e => .error e
  | .ok items =>
    .ok ⟨ls.foldl (fun acc L =>
           if startsWithL "Employee:".data L then some (asciiStrip (afterColon L)) else acc)
           none,
         items,
         scanScalar "Subtotal:".data (lastN 10 ls),
         scanScalar "Paid:".data (lastN 10 ls),
         scanScalar "Change:".data (lastN 10 ls)⟩

/-- database.py lines 449-451: resolution of total, paid and change from the
parsed scalars with their fallbacks. -/
def resolveTotals (p : Parsed) : ℚ × ℚ × ℚ :=
  let total := p.subtotal.getD ((p.items.map (·.total)).sum)
  let paid := p.paid.getD total
  (total, paid, p.change.getD (paid - total))

/-- One directory entry: a file name and its text, already split into lines
(each line newline-free, as produced by reading with `rstrip('\n')`). -/
structure RFile where
  name : String
  lines : List Line
deriving Repr, DecidableEq

/-- `fname.lower().endswith('.txt')` (ASCII model of `lower`), over the file
name's characters. -/
def endsWithTxt (s : String) : Bool := ".txt".data.isSuffixOf (s.data.map Char.toLower)

/-- The per-file body of database.py `import_receipts_from_folder`
(lines 390-463): skip non-`.txt` names, skip files whose name is already some
order's `receipt_filename`, parse, skip when no item was recognized, resolve
the totals, and record via `save_order`; if that raises, fall back to
`save_receipt`. A ValueError escaping the item loop aborts the whole scan.
Returns the updated database and whether the file counted as imported. -/
def importFile (db : DB) (f : RFile) (dt : String) : Except Unit (DB × Bool) :=
  if !endsWithTxt f.name then .ok (db, false)
  else if db.orders.any (fun r => r.receipt_filename == some f.name) then .ok (db, false)
  else
    match parseReceiptLines f.lines with
    | .error e => .error e
    | .ok p =>
      if p.items.isEmpty then .ok (db, false)
      else
        match resolveTotals p with
        | (total, paid, change) =>
          match save_order db p.items total paid change p.employee (some f.name) dt with
          | .ok (db', _) => .ok (db', true)
          | .error _ => .ok (save_receipt_db db p.items total paid change dt, true)

/-- The importer's loop over the directory listing: thread the database and
the `imported` counter through `importFile`, aborting on an uncaught
ValueError. -/
def importFold (dt : String) : List RFile → DB → Nat → Except Unit (DB × Nat)
  | [], db, n => .ok (db, n)
  | f :: rest, db, n =>
    match importFile db f dt with
    | .error e => .error e
    | .ok r => importFold dt rest r.1 (n + (if r.2 then 1 else 0))

/-- database.py `import_receipts_from_folder` (lines 379-466): run the loop
over the listing, counting imported files (unreadable files, skipped before
parsing, are outside the model). -/
def import_receipts_from_folder (db : DB) (dir : List RFile) (dt : String) :
    Except Unit (DB × Nat) := importFold dt dir db 0

/-- An order entry of system.py's `Order` container, as consumed by
`Order.as_lines` (`code`, `name`, `price`, `qty`; the rendered line total is
`price * qty`). -/
structure OrderEntry where
  code : Line
  name : Line
  price : ℚ
  qty : Int
deriving Repr, DecidableEq

/-- Python's rendering of an optional value inside an f-string (`None` prints
as the text `None`). -/
def pyShowOpt (o : Option Line) : Line :=
  match o with
  | none => "None".data
  | some l => l

/-- system.py `Order.subtotal`. -/
def order_subtotal (es : List OrderEntry) : ℚ :=
  (es.map (fun e => e.price * (e.qty : ℚ))).sum

/-- Digits grouped in threes from the right on an already reversed digit
list, as produced by Python's `,` format specifier. -/
def commaRev : Line → Line
  | a :: b :: c :: d :: rest => a :: b :: c :: ',' :: commaRev (d :: rest)
  | l => l

/-- `n` printed with comma thousands separators. -/
def commaGroup (n : Nat) : Line := (commaRev (natDigits n).reverse).reverse

/-- A value below 100 printed as exactly two digits. -/
def twoDig (n : Nat) : Line := if n < 10 then '0' :: natDigits n else natDigits n

/-- system.py `format_currency`: `f"₱{v:,.2f}"`. Modelled on the exact
two-decimal amounts the system handles, where the rounding of the binary
float is the identity; midpoint behaviour of other floats is not modelled. -/
def formatCurrency (q : ℚ) : Line :=
  let c : Int := round (q * 100)
  if c < 0 then
    '₱' :: '-' :: (commaGroup (c.natAbs / 100) ++ '.' :: twoDig (c.natAbs % 100))
  else
    '₱' :: (commaGroup (c.toNat / 100) ++ '.' :: twoDig (c.toNat % 100))

/-- One rendered item line of system.py `save_receipt` (line 179):
`f"{qty} x {name} ({code}) @ {format_currency(price)} = {format_currency(total)}"`
with `total = price * qty` from `Order.as_lines`. -/
def renderLine (e : OrderEntry) : Line :=
  intRepr e.qty ++ " x ".data ++ e.name ++ " (".data ++ e.code ++ ") @ ".data
    ++ formatCurrency e.price ++ " = ".data ++ formatCurrency (e.price * (e.qty : ℚ))

/-- system.py `save_receipt` (lines 170-189): the exact sequence of lines
written to the receipt file. Re-reading splits on the newlines written here,
so the round trip assumes the interpolated fields are newline-free. -/
def renderReceipt (es : List OrderEntry) (paid change : ℚ) (employee : Option Line)
    (now : Line) : List Line :=
  ["POS System Management".data, "Employee: ".data ++ pyShowOpt employee, now, []]
    ++ es.map renderLine
    ++ [[]]
    ++ ["Subtotal: ".data ++ formatCurrency (order_subtotal es),
        "Tax: ".data ++ formatCurrency 0,
        "Total: ".data ++ formatCurrency (order_subtotal es + 0),
        "Paid: ".data ++ formatCurrency paid,
        "Change: ".data ++ formatCurrency change]


/-- A one-line receipt file used as a concrete import example. -/
def wLines : List Line := ["1 x Rice (R) @ ₱20.00 = ₱20.00".data]

/-- The corresponding directory entry. -/
def wFile : RFile := ⟨"receipt_x.txt", wLines⟩

/-- What the codec recovers from that file. -/
def wParsed : Parsed := ⟨none, [⟨"R".data, "Rice".data, 1, 20, 20⟩], none, none, none⟩

/-- The database state after importing that file into an empty database. -/
def wDB1 : DB :=
  ⟨2, [⟨1, "t1", 20, 20, 0, none, some "receipt_x.txt"⟩],
   [⟨1, "R".data, "Rice".data, 1, 20, 20⟩],
   [⟨"R".data, "Rice".data, 1, 20, some "t1"⟩]⟩

/-- The digit body of a formatted centavo amount `n`: thousands-grouped
integral part, a dot, and exactly two decimals — `formatCurrency` without
the currency sign. -/
def amountBody (n : Nat) : Line := commaGroup (n / 100) ++ '.' :: twoDig (n % 100)

/-- Text that can be interpolated into a receipt line without breaking the
item grammar: free of parentheses and newlines. -/
def wfText (l : Line) : Prop := ∀ c ∈ l, c ≠ '(' ∧ c ≠ ')' ∧ c ≠ '\n'

/-- A well-formed order entry: printable name and code, nonempty code with
no surrounding blanks, an exact two-decimal nonnegative price and a natural
quantity — the values the POS itself produces. -/
def wfEntry (e : OrderEntry) : Prop :=
  wfText e.name ∧ wfText e.code ∧ e.code ≠ [] ∧ asciiStrip e.code = e.code ∧
  (∃ n : ℕ, e.price = (n : ℚ) / 100) ∧ (∃ q : ℕ, e.qty = (q : ℤ))

theorem takeWhile_append_all {α} (p : α → Bool) (l₁ l₂ : List α)
    (h : ∀ a ∈ l₁, p a = true) :
    (l₁ ++ l₂).takeWhile p = l₁ ++ l₂.takeWhile p := by
  induction l₁ with
  | nil => simp
  | cons c r ih =>
    simp only [List.cons_append, List.takeWhile_cons, h c (by simp), if_true, List.cons.injEq,
      true_and]
    exact ih (fun a ha => h a (by simp [ha]))

theorem dropWhile_append_all {α} (p : α → Bool) (l₁ l₂ : List α)
    (h : ∀ a ∈ l₁, p a = true) :
    (l₁ ++ l₂).dropWhile p = l₂.dropWhile p := by
  induction l₁ with
  | nil => simp
  | cons c r ih =>
    simp only [List.cons_append, List.dropWhile_cons, h c (by simp), if_true]
    exact ih (fun a ha => h a (by simp [ha]))

theorem dropWhile_append_strong {α} (p : α → Bool) (l₁ l₂ : List α)
    (h : l₁.dropWhile p ≠ []) :
    (l₁ ++ l₂).dropWhile p = l₁.dropWhile p ++ l₂ := by
  induction l₁ with
  | nil => simp at h
  | cons c r ih =>
    by_cases hc : p c
    · rw [List.dropWhile_cons_of_pos hc] at h
      simp only [List.cons_append, List.dropWhile_cons_of_pos hc]
      exact ih h
    · simp [List.dropWhile_cons_of_neg hc]

theorem dropWhile_head_false {α} (p : α → Bool) (l : List α) (c : α) (r : List α)
    (h : l.dropWhile p = c :: r) : p c = false := by
  induction l with
  | nil => simp at h
  | cons a t ih =>
    by_cases ha : p a
    · rw [List.dropWhile_cons_of_pos ha] at h
      exact ih h
    · rw [List.dropWhile_cons_of_neg ha] at h
      cases h
      simpa using ha

theorem drop_length_takeWhile {α} (p : α → Bool) (l : List α) :
    l.drop (l.takeWhile p).length = l.dropWhile p := by
  induction l with
  | nil => rfl
  | cons a t ih =>
    by_cases ha : p a
    · simpa [List.takeWhile_cons, List.dropWhile_cons, ha] using ih
    · simp [List.takeWhile_cons, List.dropWhile_cons, ha]

theorem takeWhile_eq_self_of_all {α} (p : α → Bool) (l : List α)
    (h : ∀ a ∈ l, p a = true) : l.takeWhile p = l := by
  induction l with
  | nil => rfl
  | cons c r ih =>
    simp only [List.takeWhile_cons, h c (by simp), if_true, List.cons.injEq, true_and]
    exact ih (fun a ha => h a (by simp [ha]))

theorem dropWhile_eq_nil_of_all {α} (p : α → Bool) (l : List α)
    (h : ∀ a ∈ l, p a = true) : l.dropWhile p = [] := by
  induction l with
  | nil => rfl
  | cons c r ih =>
    simp only [List.dropWhile_cons, h c (by simp), if_true]
    exact ih (fun a ha => h a (by simp [ha]))

theorem beq_false_of_isDigit {c d : Char} (h : c.isDigit = true) (hd : d.isDigit = false) :
    (c == d) = false := by
  rcases hbeq : (c == d) with _ | _
  · rfl
  · have hcd : c = d := by simpa using hbeq
    subst hcd
    rw [h] at hd
    cases hd

theorem pySpace_of_isDigit {c : Char} (h : c.isDigit = true) : pySpace c = false := by
  have h1 := beq_false_of_isDigit h (d := ' ') (by decide)
  have h2 := beq_false_of_isDigit h (d := '\t') (by decide)
  have h3 := beq_false_of_isDigit h (d := '\n') (by decide)
  have h4 := beq_false_of_isDigit h (d := '\x0b') (by decide)
  have h5 := beq_false_of_isDigit h (d := '\x0c') (by decide)
  have h6 := beq_false_of_isDigit h (d := '\r') (by decide)
  simp [pySpace, h1, h2, h3, h4, h5, h6]

theorem digitChar_isDigit {m : Nat} (h : m < 10) : (digitChar m).isDigit = true := by
  interval_cases m <;> decide

theorem digitChar_val {m : Nat} (h : m < 10) : (digitChar m).toNat - 48 = m := by
  interval_cases m <;> decide

theorem natDigitsAux_stable : ∀ f g n : Nat, n < f → n < g →
    natDigitsAux f n = natDigitsAux g n := by
  intro f
  induction f with
  | zero => intro g n h; omega
  | succ f ih =>
    intro g n hf hg
    cases g with
    | zero => omega
    | succ g =>
      simp only [natDigitsAux]
      by_cases h10 : n < 10
      · simp [h10]
      · have hdiv : n / 10 < n := Nat.div_lt_self (by omega) (by omega)
        simp only [h10, if_false]
        rw [ih g (n / 10) (by omega) (by omega)]

theorem natDigits_eq (n : Nat) :
    natDigits n =
      if n < 10 then [digitChar n] else natDigits (n / 10) ++ [digitChar (n % 10)] := by
  by_cases h : n < 10
  · simp [natDigits, natDigitsAux, h]
  · simp only [h, if_false]
    show natDigitsAux (n + 1) n = natDigitsAux (n / 10 + 1) (n / 10) ++ [digitChar (n % 10)]
    have hstep : natDigitsAux (n + 1) n = natDigitsAux n (n / 10) ++ [digitChar (n % 10)] := by
      simp [natDigitsAux, h]
    rw [hstep, natDigitsAux_stable n (n / 10 + 1) (n / 10)
      (by have := Nat.div_lt_self (show 0 < n by omega) (show 1 < 10 by omega); omega)
      (by omega)]

theorem natDigits_ne_nil (n : Nat) : natDigits n ≠ [] := by
  rw [natDigits_eq]
  by_cases h : n < 10 <;> simp [h]

theorem natDigits_all_digit (n : Nat) : ∀ c ∈ natDigits n, pyDigit c = true := by
  induction n using Nat.strong_induction_on with
  | _ n ih =>
    rw [natDigits_eq]
    by_cases h : n < 10
    · simp only [h, if_true, List.mem_singleton]
      rintro c rfl
      exact digitChar_isDigit h
    · have hdiv : n / 10 < n := Nat.div_lt_self (by omega) (by omega)
      simp only [h, if_false, List.mem_append, List.mem_singleton]
      rintro c (hc | rfl)
      · exact ih (n / 10) hdiv c hc
      · exact digitChar_isDigit (Nat.mod_lt n (by omega))

theorem digitsVal_append_last (l : Line) (c : Char) :
    digitsVal (l ++ [c]) = 10 * digitsVal l + (c.toNat - 48) := by
  simp [digitsVal, List.foldl_append]

theorem digitsVal_natDigits (n : Nat) : digitsVal (natDigits n) = n := by
  induction n using Nat.strong_induction_on with
  | _ n ih =>
    rw [natDigits_eq]
    by_cases h : n < 10
    · simp [h, digitsVal, digitChar_val h]
    · have hdiv : n / 10 < n := Nat.div_lt_self (by omega) (by omega)
      simp only [h, if_false, digitsVal_append_last, ih (n / 10) hdiv,
        digitChar_val (Nat.mod_lt n (by omega))]
      omega

theorem natDigits_head_digit (n : Nat) :
    ∃ c r, natDigits n = c :: r ∧ pyDigit c = true := by
  rcases hd : natDigits n with _ | ⟨c, r⟩
  · exact absurd hd (natDigits_ne_nil n)
  · exact ⟨c, r, rfl, natDigits_all_digit n c (by rw [hd]; simp)⟩

theorem any_of_find?_eq_some {p : OrderRow → Bool} {l : List OrderRow} {a : OrderRow}
    (h : l.find? p = some a) : l.any p = true :=
  List.any_eq_true.mpr ⟨a, List.mem_of_find?_eq_some h, List.find?_some h⟩

theorem resolveInsert_no_conflict (db : DB) (total paid change : ℚ)
    (employee : Option Line) (k : String) (dt : String)
    (hc : db.orders.any (fun r => r.receipt_filename == some k) = false) :
    resolveInsert db total paid change employee (some k) dt =
      some (db.orders ++ [⟨db.nextOrderId, dt, total, paid, change, employee, some k⟩],
            db.nextOrderId, db.nextOrderId + 1) := by
  simp [resolveInsert, hc]

theorem resolveInsert_conflict_found (db : DB) (total paid change : ℚ)
    (employee : Option Line) (k : String) (dt : String) (row : OrderRow)
    (hf : db.orders.find? (fun r => r.receipt_filename == some k) = some row) :
    resolveInsert db total paid change employee (some k) dt =
      some (db.orders, row.order_id, db.nextOrderId) := by
  simp [resolveInsert, any_of_find?_eq_some hf, hf]

/-- C1: calling `save_order` twice with the same provided `receipt_filename`
returns the same `order_id` both times, and afterwards exactly one row of
`orders` holds that key (hypothesis: the ledger satisfies the UNIQUE
constraint for that key beforehand, i.e. at most one row holds it). -/
theorem save_order_same_key_idempotent
    (db : DB) (items : List Item) (total paid change : ℚ) (employee : Option Line)
    (k : String) (dt1 dt2 : String) (hWF : countKey db k ≤ 1) :
    ∃ db1 id1 db2 id2,
      save_order db items total paid change employee (some k) dt1 = .ok (db1, id1) ∧
      save_order db1 items total paid change employee (some k) dt2 = .ok (db2, id2) ∧
      id1 = id2 ∧ countKey db2 k = 1 := by
  cases hc : db.orders.any (fun r => r.receipt_filename == some k) with
  | false =>
    have hall : ∀ x ∈ db.orders, (x.receipt_filename == some k) = false := by
      intro x hx
      rcases h : (x.receipt_filename == some k) with _ | _
      · rfl
      · have hx2 : (db.orders.any fun r => r.receipt_filename == some k) = true :=
          List.any_eq_true.mpr ⟨x, hx, h⟩
        rw [hc] at hx2
        exact absurd hx2 (by simp)
    have hnone : db.orders.find? (fun r => r.receipt_filename == some k) = none := by
      rw [List.find?_eq_none]
      intro x hx
      simp [hall x hx]
    have hfilter : db.orders.filter (fun r => r.receipt_filename == some k) = [] := by
      rw [List.filter_eq_nil_iff]
      intro x hx
      simp [hall x hx]
    set newRow : OrderRow :=
      ⟨db.nextOrderId, dt1, total, paid, change, employee, some k⟩ with hnewRow
    have hfind1 : (db.orders ++ [newRow]).find?
        (fun r => r.receipt_filename == some k) = some newRow := by
      rw [List.find?_append, hnone]
      simp [hnewRow]
    refine ⟨⟨db.nextOrderId + 1, db.orders ++ [newRow],
        db.items ++ itemRowsFor db.nextOrderId items,
        increment_sales items dt1 db.sales⟩, db.nextOrderId,
      ⟨db.nextOrderId + 1, db.orders ++ [newRow],
        (db.items ++ itemRowsFor db.nextOrderId items) ++ itemRowsFor newRow.order_id items,
        increment_sales items dt2 (increment_sales items dt1 db.sales)⟩, newRow.order_id,
      ?_, ?_, rfl, ?_⟩
    · simp [save_order, save_order_with, resolveInsert_no_conflict _ _ _ _ _ _ _ hc]
    · simp [save_order, save_order_with,
        resolveInsert_conflict_found
          ⟨db.nextOrderId + 1, db.orders ++ [newRow],
           db.items ++ itemRowsFor db.nextOrderId items,
           increment_sales items dt1 db.sales⟩
          total paid change employee k dt2 newRow hfind1]
    · simp [countKey, List.filter_append, hfilter, hnewRow]
  | true =>
    have hsome : ∃ row, db.orders.find? (fun r => r.receipt_filename == some k) = some row := by
      obtain ⟨x, hx, hpx⟩ := List.any_eq_true.mp hc
      rcases h : db.orders.find? (fun r => r.receipt_filename == some k) with _ | row
      · exact absurd hpx (by simpa using List.find?_eq_none.mp h x hx)
      · exact ⟨row, h⟩
    obtain ⟨row, hrow⟩ := hsome
    have hmem := List.mem_of_find?_eq_some hrow
    have hkey : row.receipt_filename = some k := by simpa using List.find?_some hrow
    have hpos : 1 ≤ (db.orders.filter (fun r => r.receipt_filename == some k)).length := by
      have hm : row ∈ db.orders.filter (fun r => r.receipt_filename == some k) :=
        List.mem_filter.mpr ⟨hmem, by simp [hkey]⟩
      have := List.length_pos.mpr (List.ne_nil_of_mem hm)
      omega
    refine ⟨⟨db.nextOrderId, db.orders,
        db.items ++ itemRowsFor row.order_id items,
        increment_sales items dt1 db.sales⟩, row.order_id,
      ⟨db.nextOrderId, db.orders,
        (db.items ++ itemRowsFor row.order_id items) ++ itemRowsFor row.order_id items,
        increment_sales items dt2 (increment_sales items dt1 db.sales)⟩, row.order_id,
      ?_, ?_, rfl, ?_⟩
    · simp [save_order, save_order_with,
        resolveInsert_conflict_found _ total paid change employee k dt1 row hrow]
    · simp [save_order, save_order_with,
        resolveInsert_conflict_found
          ⟨db.nextOrderId, db.orders, db.items ++ itemRowsFor row.order_id items,
           increment_sales items dt1 db.sales⟩
          total paid change employee k dt2 row hrow]
    · simp only [countKey] at hWF ⊢
      omega

theorem save_order_same_key_idempotent_witness :
    ∃ db1 id1 db2 id2,
      save_order emptyDB [⟨"AR".data, "Adobo Rice Bowl".data, 2, 65, 130⟩]
          130 150 20 (some "Kit".data) (some "receipt_x.txt") "t1" = .ok (db1, id1) ∧
      save_order db1 [⟨"AR".data, "Adobo Rice Bowl".data, 2, 65, 130⟩]
          130 150 20 (some "Kit".data) (some "receipt_x.txt") "t2" = .ok (db2, id2) ∧
      id1 = id2 ∧ countKey db2 "receipt_x.txt" = 1 :=
  save_order_same_key_idempotent emptyDB [⟨"AR".data, "Adobo Rice Bowl".data, 2, 65, 130⟩]
    130 150 20 (some "Kit".data) "receipt_x.txt" "t1" "t2" (by decide)

/-- C9: when some `orders` row already holds the given `receipt_filename`,
`save_order` returns that row's id and still inserts every supplied line as
new `order_items` rows attached to it, leaving `orders` unchanged. -/
theorem save_order_existing_key_appends_items
    (db : DB) (items : List Item) (total paid change : ℚ) (employee : Option Line)
    (k : String) (dt : String) (row : OrderRow)
    (hfind : db.orders.find? (fun r => r.receipt_filename == some k) = some row) :
    ∃ db', save_order db items total paid change employee (some k) dt =
        .ok (db', row.order_id) ∧
      db'.orders = db.orders ∧
      db'.items = db.items ++ itemRowsFor row.order_id items := by
  refine ⟨⟨db.nextOrderId, db.orders, db.items ++ itemRowsFor row.order_id items,
    increment_sales items dt db.sales⟩, ?_, rfl, rfl⟩
  simp [save_order, save_order_with,
    resolveInsert_conflict_found _ total paid change employee k dt row hfind]

theorem save_order_existing_key_appends_items_witness :
    ∃ db', save_order ⟨2, [⟨1, "t0", 130, 130, 0, none, some "receipt_x.txt"⟩], [], []⟩
        [⟨"R".data, "Rice".data, 1, 20, 20⟩] 20 20 0 none (some "receipt_x.txt") "t1" =
        .ok (db', (1 : Nat)) ∧
      db'.orders = [⟨1, "t0", 130, 130, 0, none, some "receipt_x.txt"⟩] ∧
      db'.items = [] ++ itemRowsFor 1 [⟨"R".data, "Rice".data, 1, 20, 20⟩] :=
  save_order_existing_key_appends_items
    ⟨2, [⟨1, "t0", 130, 130, 0, none, some "receipt_x.txt"⟩], [], []⟩
    [⟨"R".data, "Rice".data, 1, 20, 20⟩] 20 20 0 none "receipt_x.txt" "t1"
    ⟨1, "t0", 130, 130, 0, none, some "receipt_x.txt"⟩ (by decide)

/-- C7: whatever the aggregate-update step does — including failing with any
error — a `save_order` that succeeded keeps succeeding with the same
`order_id`, and the committed `orders` and `order_items` rows are identical;
the error is never propagated to the caller. -/
theorem save_order_aggregate_failure_not_propagated
    (incr1 incr2 : List SalesRow → Except Unit (List SalesRow))
    (db : DB) (items : List Item) (total paid change : ℚ) (employee : Option Line)
    (rk : Option String) (dt : String) (db1 : DB) (oid : Nat)
    (h : save_order_with incr1 db items total paid change employee rk dt = .ok (db1, oid)) :
    ∃ db2, save_order_with incr2 db items total paid change employee rk dt = .ok (db2, oid) ∧
      db2.orders = db1.orders ∧ db2.items = db1.items ∧
      db2.nextOrderId = db1.nextOrderId := by
  rcases hres : resolveInsert db total paid change employee rk dt with _ | ⟨orders', oid', next'⟩
  · rw [save_order_with, hres] at h
    exact absurd h (by simp)
  · rw [save_order_with, hres] at h
    have h1 : (⟨next', orders', db.items ++ itemRowsFor oid' items,
        match incr1 db.sales with
        | .ok s => s
        | .error _ => db.sales⟩ : DB) = db1 ∧ oid' = oid := by
      simpa using h
    obtain ⟨h1, h2⟩ := h1
    refine ⟨⟨next', orders', db.items ++ itemRowsFor oid' items,
        match incr2 db.sales with
        | .ok s => s
        | .error _ => db.sales⟩, ?_, ?_, ?_, ?_⟩
    · rw [save_order_with, hres, h2]
    · rw [← h1]
    · rw [← h1]
    · rw [← h1]

theorem save_order_aggregate_failure_not_propagated_witness :
    ∃ db2, save_order_with (fun _ => .error ()) emptyDB
        [⟨"R".data, "Rice".data, 1, 20, 20⟩] 20 20 0 none (some "r1.txt") "t1" =
        .ok (db2, 1) ∧
      db2.orders = [⟨1, "t1", 20, 20, 0, none, some "r1.txt"⟩] ∧
      db2.items = itemRowsFor 1 [⟨"R".data, "Rice".data, 1, 20, 20⟩] ∧
      db2.nextOrderId = 2 := by
  obtain ⟨db2, h1, h2, h3, h4⟩ :=
    save_order_aggregate_failure_not_propagated
      (fun s => .ok s) (fun _ => .error ()) emptyDB
      [⟨"R".data, "Rice".data, 1, 20, 20⟩] 20 20 0 none (some "r1.txt") "t1"
      ⟨2, [⟨1, "t1", 20, 20, 0, none, some "r1.txt"⟩],
       itemRowsFor 1 [⟨"R".data, "Rice".data, 1, 20, 20⟩], []⟩ 1 (by rfl)
  exact ⟨db2, h1, by rw [h2], by rw [h3], by rw [h4]⟩

/-- C2 (evaluation at the failing input): after `update_sales_from_orders`,
the aggregate row for code "AR" holds only the first `(code, name)` group's
quantity 1 and revenue 65, while the ledger's `order_items` rows with code
"AR" sum to quantity 3 and revenue 195 — the second group's insert hits the
`sales.code` PRIMARY KEY and is silently skipped. -/
theorem rebuild_drops_code_with_two_names :
    (((update_sales_from_orders exDB).1.sales.find? (fun s => s.code == "AR".data)).map
        (fun s => (s.total_quantity, s.total_revenue))) = some (1, (65 : ℚ)) ∧
    ((exDB.items.filter (fun it => it.code == "AR".data)).map (·.quantity)).sum = 3 ∧
    ((exDB.items.filter (fun it => it.code == "AR".data)).map (·.total)).sum = (195 : ℚ) := by
  refine ⟨?_, ?_, ?_⟩ <;>
    norm_num [update_sales_from_orders, exDB, groupKeys, groupLastDt, List.foldl,
      List.filter, List.map, List.find?, List.contains, List.any]

/-- C8 (evaluation at the failing input): `update_sales_from_orders` returns
`len(rows)`, the number of `(code, name)` groups — here 2 — although the
ledger holds a single distinct product code, contradicting its own docstring
("Returns number of distinct product codes processed"). -/
theorem rebuild_count_is_group_count :
    (update_sales_from_orders exDB).2 = 2 ∧ (distinctCodes exDB.items).length = 1 := by
  constructor
  · norm_num [update_sales_from_orders, exDB, groupKeys, groupLastDt, List.foldl,
      List.filter, List.map, List.contains, List.any]
  · norm_num [distinctCodes, exDB, List.foldl, List.contains]


theorem foldl_scalarStep_nomatch (pre : Line) (ls : List Line) (acc : Option ℚ)
    (h : ∀ L ∈ ls, startsWithL pre L = false) :
    ls.foldl (scalarStep pre) acc = acc := by
  induction ls generalizing acc with
  | nil => rfl
  | cons L t ih =>
    rw [List.foldl_cons, show scalarStep pre acc L = acc from by
      simp [scalarStep, h L (by simp)]]
    exact ih acc (fun M hM => h M (by simp [hM]))

theorem scanScalar_nomatch (pre : Line) (w : List Line)
    (h : ∀ L ∈ w, startsWithL pre L = false) : scanScalar pre w = none :=
  foldl_scalarStep_nomatch pre w.reverse none (fun L hL => h L (by simpa using hL))

theorem scanScalar_split (pre : Line) (w₁ w₂ : List Line) (L : Line)
    (hL : startsWithL pre L = true)
    (h1 : ∀ M ∈ w₁, startsWithL pre M = false)
    (h2 : ∀ M ∈ w₂, startsWithL pre M = false) :
    scanScalar pre (w₁ ++ L :: w₂) = pyFloat (stripCur (asciiStrip (afterColon L))) := by
  have hrev : (w₁ ++ L :: w₂).reverse = (w₂.reverse ++ [L]) ++ w₁.reverse := by
    simp
  rw [scanScalar, hrev, List.foldl_append, List.foldl_append,
    foldl_scalarStep_nomatch pre w₂.reverse none (fun M hM => h2 M (by simpa using hM))]
  simp only [List.foldl_cons, List.foldl_nil, scalarStep, hL, if_true]
  exact foldl_scalarStep_nomatch pre w₁.reverse _ (fun M hM => h1 M (by simpa using hM))

theorem foldl_scalarStep_none (pre : Line) (ls : List Line)
    (h : ∀ L ∈ ls, startsWithL pre L = true →
      pyFloat (stripCur (asciiStrip (afterColon L))) = none) :
    ls.foldl (scalarStep pre) none = none := by
  induction ls with
  | nil => rfl
  | cons L t ih =>
    have hstep : scalarStep pre none L = none := by
      by_cases hs : startsWithL pre L
      · simp [scalarStep, hs, h L (by simp) hs]
      · simp [scalarStep, hs]
    rw [List.foldl_cons, hstep]
    exact ih (fun M hM hsM => h M (by simp [hM]) hsM)

theorem scanScalar_none_of_no_value (pre : Line) (w : List Line)
    (h : ∀ L ∈ w, startsWithL pre L = true →
      pyFloat (stripCur (asciiStrip (afterColon L))) = none) :
    scanScalar pre w = none :=
  foldl_scalarStep_none pre w.reverse (fun L hL => h L (by simpa using hL))

theorem collectItems_eq_filterMap (ls : List Line)
    (hok : ∀ L ∈ ls, lineToItem L ≠ .error ()) :
    collectItems ls =
      .ok (ls.filterMap (fun L =>
        match lineToItem L with
        | .ok o => o
        | .error _ => none)) := by
  induction ls with
  | nil => rfl
  | cons L t ih =>
    rcases hL : lineToItem L with e | o
    · cases e
      exact absurd hL (hok L (by simp))
    · have iht := ih (fun M hM => hok M (by simp [hM]))
      cases o with
      | none => simp [collectItems, hL, List.filterMap_cons, iht]
      | some it => simp [collectItems, hL, List.filterMap_cons, iht]

/-- C10: the importer recognizes the `Subtotal:`, `Paid:` and `Change:`
scalars only among the last ten lines of the file: when no line of that
window carries one of the prefixes, each scalar parses as `None` — even if
such lines occur earlier in the file — and the fallback resolution is used:
total is the sum of the recognized line totals, paid equals that total, and
change is their difference, zero. -/
theorem scalars_recognized_only_in_window (ls : List Line) (p : Parsed)
    (hp : parseReceiptLines ls = .ok p)
    (hwin : ∀ L ∈ lastN 10 ls,
      startsWithL "Subtotal:".data L = false ∧ startsWithL "Paid:".data L = false ∧
      startsWithL "Change:".data L = false)
    (hearly : ∃ L ∈ ls, startsWithL "Subtotal:".data L = true) :
    p.subtotal = none ∧ p.paid = none ∧ p.change = none ∧
    resolveTotals p = ((p.items.map (·.total)).sum, (p.items.map (·.total)).sum, 0) := by
  have hsub := scanScalar_nomatch "Subtotal:".data (lastN 10 ls) (fun L hL => (hwin L hL).1)
  have hpaid := scanScalar_nomatch "Paid:".data (lastN 10 ls) (fun L hL => (hwin L hL).2.1)
  have hchg := scanScalar_nomatch "Change:".data (lastN 10 ls) (fun L hL => (hwin L hL).2.2)
  simp only [parseReceiptLines] at hp
  rcases hci : collectItems ls with e | items
  · rw [hci] at hp
    cases hp
  · rw [hci] at hp
    have hpeq : p = ⟨ls.foldl (fun acc L =>
        if startsWithL "Employee:".data L then some (asciiStrip (afterColon L)) else acc)
        none, items,
        scanScalar "Subtotal:".data (lastN 10 ls),
        scanScalar "Paid:".data (lastN 10 ls),
        scanScalar "Change:".data (lastN 10 ls)⟩ := by
      cases hp
      rfl
    subst hpeq
    refine ⟨hsub, hpaid, hchg, ?_⟩
    simp [resolveTotals, hsub, hpaid, hchg]

theorem scalars_recognized_only_in_window_witness :
    (⟨none, [], none, none, none⟩ : Parsed).subtotal = none ∧
    (⟨none, [], none, none, none⟩ : Parsed).paid = none ∧
    (⟨none, [], none, none, none⟩ : Parsed).change = none ∧
    resolveTotals ⟨none, [], none, none, none⟩ =
      ((([] : List Item).map (·.total)).sum, (([] : List Item).map (·.total)).sum, 0) := by
  have h := scalars_recognized_only_in_window
    ("Subtotal: ₱5.00".data :: List.replicate 10 "pad".data)
    ⟨none, [], none, none, none⟩ (by decide) (by decide)
    ⟨"Subtotal: ₱5.00".data, by simp, by decide⟩
  simpa using h

/-- C6 is refuted as stated: parsing can raise. This line matches the item
grammar with the amount groups `","`; the bare `float('')` then raises a
ValueError that nothing in the importer catches. -/
theorem parse_raises_on_comma_only_amount :
    parseReceiptLines ["1 x A (B) @ , = ,".data] = .error () := by decide

/-- C6 (amended): on every input in which no item-grammar line carries an
amount group without digits, parsing is total and returns a value: every line
not matching the item grammar is ignored (the items are exactly the matched
lines' items, in order), and each of Subtotal, Paid and Change is left unset
when no line of the ten-line window parses a value for it. -/
theorem parse_total_amended (ls : List Line)
    (hok : ∀ L ∈ ls, lineToItem L ≠ .error ()) :
    ∃ r, parseReceiptLines ls = .ok r ∧
      r.items = ls.filterMap (fun L =>
        match lineToItem L with
        | .ok o => o
        | .error _ => none) ∧
      ((∀ L ∈ lastN 10 ls, startsWithL "Subtotal:".data L = true →
          pyFloat (stripCur (asciiStrip (afterColon L))) = none) → r.subtotal = none) ∧
      ((∀ L ∈ lastN 10 ls, startsWithL "Paid:".data L = true →
          pyFloat (stripCur (asciiStrip (afterColon L))) = none) → r.paid = none) ∧
      ((∀ L ∈ lastN 10 ls, startsWithL "Change:".data L = true →
          pyFloat (stripCur (asciiStrip (afterColon L))) = none) → r.change = none) := by
  refine ⟨⟨ls.foldl (fun acc L =>
      if startsWithL "Employee:".data L then some (asciiStrip (afterColon L)) else acc) none,
    ls.filterMap (fun L =>
      match lineToItem L with
      | .ok o => o
      | .error _ => none),
    scanScalar "Subtotal:".data (lastN 10 ls),
    scanScalar "Paid:".data (lastN 10 ls),
    scanScalar "Change:".data (lastN 10 ls)⟩, ?_, rfl, ?_, ?_, ?_⟩
  · simp only [parseReceiptLines, collectItems_eq_filterMap ls hok]
  · exact fun h => scanScalar_none_of_no_value _ _ h
  · exact fun h => scanScalar_none_of_no_value _ _ h
  · exact fun h => scanScalar_none_of_no_value _ _ h

theorem parse_total_amended_witness :
    ∃ r, parseReceiptLines ["Hello".data, "Subtotal: abc".data] = .ok r ∧
      r.items = (["Hello".data, "Subtotal: abc".data]).filterMap (fun L =>
        match lineToItem L with
        | .ok o => o
        | .error _ => none) ∧
      ((∀ L ∈ lastN 10 ["Hello".data, "Subtotal: abc".data],
          startsWithL "Subtotal:".data L = true →
          pyFloat (stripCur (asciiStrip (afterColon L))) = none) → r.subtotal = none) ∧
      ((∀ L ∈ lastN 10 ["Hello".data, "Subtotal: abc".data],
          startsWithL "Paid:".data L = true →
          pyFloat (stripCur (asciiStrip (afterColon L))) = none) → r.paid = none) ∧
      ((∀ L ∈ lastN 10 ["Hello".data, "Subtotal: abc".data],
          startsWithL "Change:".data L = true →
          pyFloat (stripCur (asciiStrip (afterColon L))) = none) → r.change = none) :=
  parse_total_amended ["Hello".data, "Subtotal: abc".data] (by decide)

theorem find?_isSome_of_any {p : OrderRow → Bool} {l : List OrderRow} (h : l.any p = true) :
    ∃ row, l.find? p = some row := by
  obtain ⟨x, hx, hpx⟩ := List.any_eq_true.mp h
  rcases hf : l.find? p with _ | row
  · exact absurd hpx (by simpa using List.find?_eq_none.mp hf x hx)
  · exact ⟨row, rfl⟩

theorem resolveInsert_orders_cases {db : DB} {total paid change : ℚ}
    {employee : Option Line} {rk : Option String} {dt : String}
    {orders' : List OrderRow} {oid next' : Nat}
    (h : resolveInsert db total paid change employee rk dt = some (orders', oid, next')) :
    orders' = db.orders ∨
      orders' = db.orders ++ [⟨db.nextOrderId, dt, total, paid, change, employee, rk⟩] := by
  rcases rk with _ | k
  · simp only [resolveInsert] at h
    obtain ⟨h1, h2, h3⟩ := by simpa using h
    right
    rw [← h1]
  · simp only [resolveInsert] at h
    by_cases hany : (db.orders.any (fun r => r.receipt_filename == some k)) = true
    · rw [if_pos hany] at h
      rcases hf : db.orders.find? (fun r => r.receipt_filename == some k) with _ | row
      · simp only [hf] at h
        exact absurd h (by simp)
      · simp only [hf] at h
        obtain ⟨h1, h2, h3⟩ := by simpa using h
        left
        rw [← h1]
    · rw [if_neg hany] at h
      obtain ⟨h1, h2, h3⟩ := by simpa using h
      right
      rw [← h1]

theorem save_order_ok_orders_cases {db : DB} {items : List Item} {total paid change : ℚ}
    {employee : Option Line} {rk : Option String} {dt : String} {db' : DB} {oid : Nat}
    (h : save_order db items total paid change employee rk dt = .ok (db', oid)) :
    db'.orders = db.orders ∨
      db'.orders = db.orders ++ [⟨db.nextOrderId, dt, total, paid, change, employee, rk⟩] := by
  simp only [save_order, save_order_with] at h
  rcases hres : resolveInsert db total paid change employee rk dt with _ | ⟨orders', oid', next'⟩
  · simp only [hres] at h
    exact absurd h (by simp)
  · simp only [hres] at h
    obtain ⟨h1, h2⟩ := by simpa using h
    rcases resolveInsert_orders_cases hres with hcase | hcase
    · left
      rw [← h1, hcase]
    · right
      rw [← h1, hcase]

theorem save_order_key_present {db : DB} {items : List Item} {total paid change : ℚ}
    {employee : Option Line} {k : String} {dt : String} {db' : DB} {oid : Nat}
    (h : save_order db items total paid change employee (some k) dt = .ok (db', oid)) :
    ∃ r ∈ db'.orders, r.receipt_filename = some k := by
  simp only [save_order, save_order_with] at h
  rcases hres : resolveInsert db total paid change employee (some k) dt
    with _ | ⟨orders', oid', next'⟩
  · simp only [hres] at h
    exact absurd h (by simp)
  · simp only [hres] at h
    obtain ⟨h1, h2⟩ := by simpa using h
    have hdbo : db'.orders = orders' := by rw [← h1]
    simp only [resolveInsert] at hres
    by_cases hany : (db.orders.any (fun r => r.receipt_filename == some k)) = true
    · rw [if_pos hany] at hres
      obtain ⟨row, hrow⟩ := find?_isSome_of_any hany
      simp only [hrow] at hres
      obtain ⟨e1, e2, e3⟩ := by simpa using hres
      refine ⟨row, ?_, by simpa using List.find?_some hrow⟩
      rw [hdbo, ← e1]
      exact List.mem_of_find?_eq_some hrow
    · rw [if_neg hany] at hres
      obtain ⟨e1, e2, e3⟩ := by simpa using hres
      refine ⟨⟨db.nextOrderId, dt, total, paid, change, employee, some k⟩, ?_, rfl⟩
      rw [hdbo, ← e1]
      simp

theorem save_order_some_key_isOk (db : DB) (items : List Item) (total paid change : ℚ)
    (employee : Option Line) (k : String) (dt : String) :
    ∃ db' oid, save_order db items total paid change employee (some k) dt = .ok (db', oid) := by
  rcases hany : db.orders.any (fun r => r.receipt_filename == some k) with _ | _
  · refine ⟨⟨db.nextOrderId + 1,
      db.orders ++ [⟨db.nextOrderId, dt, total, paid, change, employee, some k⟩],
      db.items ++ itemRowsFor db.nextOrderId items,
      increment_sales items dt db.sales⟩, db.nextOrderId, ?_⟩
    simp [save_order, save_order_with,
      resolveInsert_no_conflict db total paid change employee k dt hany]
  · obtain ⟨row, hrow⟩ := find?_isSome_of_any hany
    refine ⟨⟨db.nextOrderId, db.orders,
      db.items ++ itemRowsFor row.order_id items,
      increment_sales items dt db.sales⟩, row.order_id, ?_⟩
    simp [save_order, save_order_with,
      resolveInsert_conflict_found db total paid change employee k dt row hrow]

theorem importFile_orders_mono {db : DB} {f : RFile} {dt : String} {db' : DB} {b : Bool}
    (h : importFile db f dt = .ok (db', b)) : ∀ r ∈ db.orders, r ∈ db'.orders := by
  intro r hr
  rcases hext : endsWithTxt f.name with _ | _
  · simp [importFile, hext] at h
    rw [← h.1]
    exact hr
  · rcases hany : db.orders.any (fun x => x.receipt_filename == some f.name) with _ | _
    · rcases hp : parseReceiptLines f.lines with e | p
      · simp [importFile, hext, hany, hp] at h
      · rcases hne : p.items.isEmpty with _ | _
        · rcases hso : save_order db p.items (resolveTotals p).1 (resolveTotals p).2.1
            (resolveTotals p).2.2 p.employee (some f.name) dt with e | ⟨db2, oid⟩
          · simp [importFile, hext, hany, hp, hne, hso] at h
            rw [← h.1]
            simp [save_receipt_db, hr]
          · simp [importFile, hext, hany, hp, hne, hso] at h
            rw [← h.1]
            rcases save_order_ok_orders_cases hso with hcase | hcase <;> simp [hcase, hr]
        · simp [importFile, hext, hany, hp, hne] at h
          rw [← h.1]
          exact hr
    · simp [importFile, hext, hany] at h
      rw [← h.1]
      exact hr

theorem importFold_nil (dt : String) (db : DB) (n : Nat) :
    importFold dt [] db n = .ok (db, n) := rfl

set_option maxHeartbeats 2000000 in
theorem importFold_cons (dt : String) (db : DB) (n : Nat) (f : RFile) (t : List RFile) :
    importFold dt (f :: t) db n =
      match importFile db f dt with
      | .error e => .error e
      | .ok r => importFold dt t r.1 (n + (if r.2 then 1 else 0)) := rfl

theorem importFold_orders_mono (dt : String) :
    ∀ (dir : List RFile) (db : DB) (n : Nat) (db' : DB) (n' : Nat),
    importFold dt dir db n = .ok (db', n') → ∀ r ∈ db.orders, r ∈ db'.orders := by
  intro dir
  induction dir with
  | nil =>
    intro db n db' n' h r hr
    have h' : (Except.ok (db, n) : Except Unit (DB × Nat)) = .ok (db', n') := h
    obtain ⟨h1, h2⟩ := by simpa using h'
    rw [← h1]
    exact hr
  | cons f t ih =>
    intro db n db' n' h r hr
    rw [importFold_cons] at h
    rcases hstep : importFile db f dt with e | ⟨dbA, b⟩
    · rw [hstep] at h
      exact absurd (show (Except.error e : Except Unit (DB × Nat)) = .ok (db', n') from h)
        (by simp)
    · rw [hstep] at h
      have h' : importFold dt t dbA (n + (if b then 1 else 0)) = .ok (db', n') := h
      exact ih dbA _ db' n' h' r (importFile_orders_mono hstep r hr)

theorem importFile_second_run_skips {db : DB} {f : RFile} {dt1 : String} {dbA : DB} {b : Bool}
    (hstep : importFile db f dt1 = .ok (dbA, b)) (dbF : DB) (dt2 : String)
    (hsub : ∀ r ∈ dbA.orders, r ∈ dbF.orders) :
    importFile dbF f dt2 = .ok (dbF, false) := by
  rcases hext : endsWithTxt f.name with _ | _
  · simp [importFile, hext]
  · rcases hany2 : dbF.orders.any (fun x => x.receipt_filename == some f.name) with _ | _
    case true =>
      simp [importFile, hext, hany2]
    case false =>
      rcases hany : db.orders.any (fun x => x.receipt_filename == some f.name) with _ | _
      case true =>
        -- run 1 skipped on the key, so the key row is in db = dbA ⊆ dbF
        simp [importFile, hext, hany] at hstep
        obtain ⟨row, hrow⟩ := find?_isSome_of_any hany
        have hmem : row ∈ dbF.orders := by
          apply hsub
          rw [← hstep.1]
          exact List.mem_of_find?_eq_some hrow
        have hc : (dbF.orders.any fun x => x.receipt_filename == some f.name) = true :=
          List.any_eq_true.mpr ⟨row, hmem, by simpa using List.find?_some hrow⟩
        rw [hany2] at hc
        cases hc
      case false =>
        rcases hp : parseReceiptLines f.lines with e | p
        · simp [importFile, hext, hany, hp] at hstep
        · rcases hne : p.items.isEmpty with _ | _
          case false =>
            -- run 1 recorded via save_order, which cannot fail with a provided
            -- key; its key row reached dbF, contradicting the skipped guard
            obtain ⟨db2, oid, hso⟩ :=
              save_order_some_key_isOk db p.items (resolveTotals p).1 (resolveTotals p).2.1
                (resolveTotals p).2.2 p.employee f.name dt1
            simp [importFile, hext, hany, hp, hne, hso] at hstep
            obtain ⟨row, hmem2, hkey⟩ := save_order_key_present hso
            have hmemF : row ∈ dbF.orders := by
              apply hsub
              rw [← hstep.1]
              exact hmem2
            have hc : (dbF.orders.any fun x => x.receipt_filename == some f.name) = true :=
              List.any_eq_true.mpr ⟨row, hmemF, by simp [hkey]⟩
            rw [hany2] at hc
            cases hc
          case true =>
            simp [importFile, hext, hany2, hp, hne]

theorem importFold_idempotent :
    ∀ (dir : List RFile) (dt1 dt2 : String) (db : DB) (n : Nat) (db1 : DB) (n1 : Nat),
    importFold dt1 dir db n = .ok (db1, n1) →
    ∀ m, importFold dt2 dir db1 m = .ok (db1, m) := by
  intro dir
  induction dir with
  | nil =>
    intro dt1 dt2 db n db1 n1 h m
    rfl
  | cons f t ih =>
    intro dt1 dt2 db n db1 n1 h m
    rw [importFold_cons] at h
    rcases hstep : importFile db f dt1 with e | ⟨dbA, b⟩
    · rw [hstep] at h
      exact absurd (show (Except.error e : Except Unit (DB × Nat)) = .ok (db1, n1) from h)
        (by simp)
    · rw [hstep] at h
      have h' : importFold dt1 t dbA (n + (if b then 1 else 0)) = .ok (db1, n1) := h
      have hsub : ∀ r ∈ dbA.orders, r ∈ db1.orders :=
        importFold_orders_mono dt1 t dbA _ db1 n1 h'
      have hskip := importFile_second_run_skips hstep db1 dt2 hsub
      rw [importFold_cons, hskip]
      show importFold dt2 t db1 (m + (if false then 1 else 0)) = .ok (db1, m)
      simpa using ih dt1 dt2 dbA _ db1 n1 h' m

/-- C4: running the importer a second time over the same unchanged directory
leaves the database identical to the state after the first run and imports
nothing: every file either still fails the `.txt` filter, still parses to no
items, or — once recorded — has its name held as some order's
`receipt_filename` and is skipped by the idempotence guard. -/
theorem import_receipts_idempotent (db : DB) (dir : List RFile) (dt1 dt2 : String)
    (db1 : DB) (n1 : Nat)
    (h : import_receipts_from_folder db dir dt1 = .ok (db1, n1)) :
    import_receipts_from_folder db1 dir dt2 = .ok (db1, 0) :=
  importFold_idempotent dir dt1 dt2 db 0 db1 n1 h 0

set_option maxHeartbeats 2000000 in
theorem import_receipts_idempotent_witness :
    import_receipts_from_folder wDB1 [wFile] "t2" = .ok (wDB1, 0) := by
  have hparse : parseReceiptLines wFile.lines = .ok wParsed := by decide
  have hfile : importFile emptyDB wFile "t1" = .ok (wDB1, true) := by
    simp only [importFile, hparse]
    rw [if_neg (by decide), if_neg (by decide), if_neg (by decide)]
    norm_num [resolveTotals, wParsed, wFile, save_order, save_order_with, resolveInsert,
      itemRowsFor, increment_sales, emptyDB, wDB1]
  have h : import_receipts_from_folder emptyDB [wFile] "t1" = .ok (wDB1, 1) := by
    show importFold "t1" [wFile] emptyDB 0 = .ok (wDB1, 1)
    rw [importFold_cons, hfile]
    rfl
  exact import_receipts_idempotent emptyDB [wFile] "t1" "t2" wDB1 1 h

/-- C5: a parsed `.txt` file with at least one recognized item, not yet
recorded, is imported with total, paid and change resolved exactly as the
spec states: parsed Subtotal else the sum of the parsed line totals; parsed
Paid else the resolved total; parsed Change else paid minus total. -/
theorem import_resolves_totals (db : DB) (f : RFile) (dt : String) (p : Parsed)
    (hext : endsWithTxt f.name = true)
    (hnew : db.orders.any (fun r => r.receipt_filename == some f.name) = false)
    (hp : parseReceiptLines f.lines = .ok p)
    (hne : p.items.isEmpty = false) :
    ∃ db' T P C, importFile db f dt = .ok (db', true) ∧
      T = p.subtotal.getD ((p.items.map (·.total)).sum) ∧
      P = p.paid.getD T ∧
      C = p.change.getD (P - T) ∧
      db'.orders = db.orders ++ [⟨db.nextOrderId, dt, T, P, C, p.employee, some f.name⟩] := by
  refine ⟨⟨db.nextOrderId + 1,
    db.orders ++ [⟨db.nextOrderId, dt,
      p.subtotal.getD ((p.items.map (·.total)).sum),
      p.paid.getD (p.subtotal.getD ((p.items.map (·.total)).sum)),
      p.change.getD (p.paid.getD (p.subtotal.getD ((p.items.map (·.total)).sum)) -
        p.subtotal.getD ((p.items.map (·.total)).sum)),
      p.employee, some f.name⟩],
    db.items ++ itemRowsFor db.nextOrderId p.items,
    increment_sales p.items dt db.sales⟩,
    _, _, _, ?_, rfl, rfl, rfl, rfl⟩
  simp only [importFile, hext, hnew, hp, hne]
  simp [resolveTotals, save_order, save_order_with,
    resolveInsert_no_conflict db _ _ _ p.employee f.name dt hnew]

theorem import_resolves_totals_witness :
    ∃ db' T P C, importFile emptyDB wFile "t1" = .ok (db', true) ∧
      T = wParsed.subtotal.getD ((wParsed.items.map (·.total)).sum) ∧
      P = wParsed.paid.getD T ∧
      C = wParsed.change.getD (P - T) ∧
      db'.orders = emptyDB.orders ++
        [⟨emptyDB.nextOrderId, "t1", T, P, C, wParsed.employee, some wFile.name⟩] :=
  import_resolves_totals emptyDB wFile "t1" wParsed (by decide) (by decide) (by decide)
    (by decide)

theorem commaRev_mem : ∀ (l : Line), ∀ c ∈ commaRev l, c ∈ l ∨ c = ','
  | a :: b :: cc :: d :: rest => by
    intro c hc
    rw [show commaRev (a :: b :: cc :: d :: rest) =
      a :: b :: cc :: ',' :: commaRev (d :: rest) from rfl] at hc
    simp only [List.mem_cons] at hc
    rcases hc with h | h | h | h | h
    · exact Or.inl (by simp [List.mem_cons, h])
    · exact Or.inl (by simp [List.mem_cons, h])
    · exact Or.inl (by simp [List.mem_cons, h])
    · exact Or.inr h
    · rcases commaRev_mem (d :: rest) c h with h2 | h2
      · simp only [List.mem_cons] at h2
        refine Or.inl ?_
        simp only [List.mem_cons]
        tauto
      · exact Or.inr h2
  | [] => fun c hc => Or.inl hc
  | [a] => fun c hc => Or.inl hc
  | [a, b] => fun c hc => Or.inl hc
  | [a, b, cc] => fun c hc => Or.inl hc

theorem commaGroup_chars (n : Nat) : ∀ c ∈ commaGroup n, pyDigit c = true ∨ c = ',' := by
  intro c hc
  simp only [commaGroup, List.mem_reverse] at hc
  rcases commaRev_mem _ c hc with h | h
  · exact Or.inl (natDigits_all_digit n c (by simpa using h))
  · exact Or.inr h

theorem commaRev_ne_nil : ∀ l : Line, l ≠ [] → commaRev l ≠ []
  | a :: b :: c :: d :: rest, _ => by
    rw [show commaRev (a :: b :: c :: d :: rest) =
      a :: b :: c :: ',' :: commaRev (d :: rest) from rfl]
    simp
  | [], h => absurd rfl h
  | [a], _ => List.cons_ne_nil a []
  | [a, b], _ => List.cons_ne_nil a [b]
  | [a, b, c], _ => List.cons_ne_nil a [b, c]

theorem commaGroup_ne_nil (n : Nat) : commaGroup n ≠ [] := by
  simp only [commaGroup, ne_eq, List.reverse_eq_nil_iff]
  exact commaRev_ne_nil _ (by simp [natDigits_ne_nil n])

theorem twoDig_chars (n : Nat) : ∀ c ∈ twoDig n, pyDigit c = true := by
  intro c hc
  simp only [twoDig] at hc
  by_cases h : n < 10
  · rw [if_pos h] at hc
    simp only [List.mem_cons] at hc
    rcases hc with h2 | h2
    · subst h2; decide
    · exact natDigits_all_digit n c h2
  · rw [if_neg h] at hc
    exact natDigits_all_digit n c hc

theorem twoDig_length {n : Nat} (h : n < 100) : (twoDig n).length = 2 := by
  simp only [twoDig]
  by_cases h10 : n < 10
  · rw [if_pos h10, natDigits_eq, if_pos h10]
    rfl
  · rw [if_neg h10, natDigits_eq, if_neg h10]
    have hq : n / 10 < 10 := by omega
    rw [natDigits_eq, if_pos hq]
    rfl

theorem digitsVal_cons_zero (l : Line) : digitsVal ('0' :: l) = digitsVal l := rfl

theorem digitsVal_twoDig (n : Nat) : digitsVal (twoDig n) = n := by
  simp only [twoDig]
  by_cases h10 : n < 10
  · rw [if_pos h10, digitsVal_cons_zero, digitsVal_natDigits]
  · rw [if_neg h10, digitsVal_natDigits]

theorem stripCur_append (l1 l2 : Line) :
    stripCur (l1 ++ l2) = stripCur l1 ++ stripCur l2 := by
  simp [stripCur]

theorem stripCur_comma_cons (l : Line) : stripCur (',' :: l) = stripCur l := by
  simp only [stripCur, List.filter_cons]
  rw [show (!(',' == ',' || ',' == '$' || ',' == '₱')) = false from rfl]
  simp

theorem stripCur_commaRev : ∀ l : Line, stripCur (commaRev l) = stripCur l
  | a :: b :: c :: d :: rest => by
    have ih := stripCur_commaRev (d :: rest)
    rw [show commaRev (a :: b :: c :: d :: rest) =
        [a, b, c] ++ ',' :: commaRev (d :: rest) from rfl,
      show (a :: b :: c :: d :: rest : Line) = [a, b, c] ++ d :: rest from rfl,
      stripCur_append, stripCur_append, stripCur_comma_cons, ih]
  | [] => rfl
  | [a] => rfl
  | [a, b] => rfl
  | [a, b, c] => rfl

theorem keep_of_digit {c : Char} (h : pyDigit c = true) :
    (!(c == ',' || c == '$' || c == '₱')) = true := by
  have h' : c.isDigit = true := h
  have h1 := beq_false_of_isDigit h' (d := ',') (by decide)
  have h2 := beq_false_of_isDigit h' (d := '$') (by decide)
  have h3 := beq_false_of_isDigit h' (d := '₱') (by decide)
  simp [h1, h2, h3]

theorem stripCur_digits (l : Line) (h : ∀ c ∈ l, pyDigit c = true) : stripCur l = l :=
  List.filter_eq_self.mpr (fun c hc => keep_of_digit (h c hc))

theorem stripCur_reverse (l : Line) : stripCur l.reverse = (stripCur l).reverse := by
  simp [stripCur, List.filter_reverse]

theorem stripCur_commaGroup (n : Nat) : stripCur (commaGroup n) = natDigits n := by
  rw [show stripCur (commaGroup n)
      = stripCur ((commaRev (natDigits n).reverse).reverse) from rfl,
    stripCur_reverse, stripCur_commaRev, stripCur_reverse,
    stripCur_digits _ (natDigits_all_digit n), List.reverse_reverse]


theorem dropWhile_eq_self_of_all_neg {α} (p : α → Bool) (l : List α)
    (h : ∀ a ∈ l, p a = false) : l.dropWhile p = l := by
  cases l with
  | nil => rfl
  | cons a t =>
    rw [List.dropWhile_cons, h a (by simp)]
    simp

theorem asciiStrip_eq_self (l : Line) (h : ∀ c ∈ l, pySpace c = false) :
    asciiStrip l = l := by
  rw [asciiStrip, dropWhile_eq_self_of_all_neg _ _ h,
    dropWhile_eq_self_of_all_neg _ _ (fun c hc => h c (by simpa using hc)),
    List.reverse_reverse]

theorem asciiStrip_cons_space (l : Line) : asciiStrip (' ' :: l) = asciiStrip l := by
  rw [asciiStrip, asciiStrip, List.dropWhile_cons]
  simp [pySpace]

theorem stripCur_cons_keep {c : Char} (h : (!(c == ',' || c == '$' || c == '₱')) = true)
    (l : Line) : stripCur (c :: l) = c :: stripCur l := by
  rw [stripCur, List.filter_cons, if_pos h]
  rfl

theorem stripCur_cons_drop {c : Char} (h : (!(c == ',' || c == '$' || c == '₱')) = false)
    (l : Line) : stripCur (c :: l) = stripCur l := by
  rw [stripCur, List.filter_cons, if_neg (by simp [h])]
  rfl

theorem stripCur_amountBody (n : ℕ) :
    stripCur (amountBody n) = natDigits (n / 100) ++ '.' :: twoDig (n % 100) := by
  rw [amountBody, stripCur_append, stripCur_commaGroup,
    stripCur_cons_keep (by decide), stripCur_digits _ (twoDig_chars _)]

theorem amountBody_chars (n : ℕ) :
    ∀ c ∈ amountBody n, pyDigit c = true ∨ c = ',' ∨ c = '.' := by
  intro c hc
  rw [amountBody] at hc
  simp only [List.mem_append, List.mem_cons] at hc
  rcases hc with h | h | h
  · rcases commaGroup_chars _ c h with h2 | h2
    · exact Or.inl h2
    · exact Or.inr (Or.inl h2)
  · exact Or.inr (Or.inr h)
  · exact Or.inl (twoDig_chars _ c h)

theorem amountBody_nospace (n : ℕ) : ∀ c ∈ amountBody n, pySpace c = false := by
  intro c hc
  rcases amountBody_chars n c hc with h | h | h
  · exact pySpace_of_isDigit h
  · subst h; decide
  · subst h; decide

theorem round_div_100 (n : ℕ) : round ((n : ℚ) / 100 * 100) = (n : ℤ) := by
  rw [div_mul_cancel₀]
  · exact round_natCast n
  · norm_num

theorem formatCurrency_cent (n : ℕ) :
    formatCurrency ((n : ℚ) / 100) = '₱' :: amountBody n := by
  simp only [formatCurrency, round_div_100]
  rw [if_neg (by omega), Int.toNat_natCast]
  rfl

theorem pyFloat_digits_dot (a b : ℕ) (hb : b < 100) :
    pyFloat (natDigits a ++ '.' :: twoDig b) = some (((100 * a + b : ℕ) : ℚ) / 100) := by
  obtain ⟨c, r, hc, hcd⟩ := natDigits_head_digit a
  have hdig : ∀ x ∈ natDigits a, pyDigit x = true := natDigits_all_digit a
  have htw : ∀ x ∈ twoDig b, pyDigit x = true := twoDig_chars b
  have hsp : ∀ x ∈ natDigits a ++ '.' :: twoDig b, pySpace x = false := by
    intro x hx
    simp only [List.mem_append, List.mem_cons] at hx
    rcases hx with h | h | h
    · exact pySpace_of_isDigit (hdig x h)
    · subst h; decide
    · exact pySpace_of_isDigit (htw x h)
  have hstrip := asciiStrip_eq_self _ hsp
  have htake : (natDigits a ++ '.' :: twoDig b).takeWhile pyDigit = natDigits a := by
    rw [takeWhile_append_all _ _ _ hdig, List.takeWhile_cons]
    rw [show pyDigit '.' = false from rfl]
    simp
  have hdrop : (natDigits a ++ '.' :: twoDig b).dropWhile pyDigit = '.' :: twoDig b := by
    rw [dropWhile_append_all _ _ _ hdig, List.dropWhile_cons]
    rw [show pyDigit '.' = false from rfl]
    simp
  have hfp : (twoDig b).takeWhile pyDigit = twoDig b := takeWhile_eq_self_of_all _ _ htw
  have hfd : (twoDig b).dropWhile pyDigit = [] := dropWhile_eq_nil_of_all _ _ htw
  have hcm : (c == '-') = false := beq_false_of_isDigit hcd (by decide)
  have hcp : (c == '+') = false := beq_false_of_isDigit hcd (by decide)
  have hdv : digitsVal (natDigits a) = a := digitsVal_natDigits a
  have hdb : digitsVal (twoDig b) = b := digitsVal_twoDig b
  have hlen : (twoDig b).length = 2 := twoDig_length hb
  rw [hc] at hstrip htake hdrop hdv ⊢
  rw [List.cons_append] at hstrip htake hdrop ⊢
  simp only [pyFloat, hstrip, hcm, hcp, Bool.false_eq_true, if_false,
    htake, hdrop, hfp, hfd]
  rw [if_pos (by simp)]
  rw [hdv, hdb, hlen]
  refine congrArg some ?_
  rw [Rat.mkRat_eq_div]
  push_cast
  ring

theorem pyFloat_cent (n : ℕ) :
    pyFloat (stripCur (amountBody n)) = some ((n : ℚ) / 100) := by
  rw [stripCur_amountBody, pyFloat_digits_dot _ _ (Nat.mod_lt n (by omega)),
    Nat.div_add_mod]

theorem pyFloat_curr_cent (n : ℕ) :
    pyFloat (stripCur ('₱' :: amountBody n)) = some ((n : ℚ) / 100) := by
  rw [stripCur_cons_drop (by decide), pyFloat_cent]


theorem isEmpty_false_of_ne_nil {α} {l : List α} (h : l ≠ []) : l.isEmpty = false := by
  simp [List.isEmpty_iff, h]

theorem amountGroup_amountBody (n : ℕ) (r : Line)
    (hr : r = [] ∨ ∃ d r2, r = d :: r2 ∧ pyDigit d = false ∧ (d == ',') = false) :
    amountGroup (amountBody n ++ r) = some (amountBody n, r) := by
  have hcg : ∀ c ∈ commaGroup (n / 100), (fun c => pyDigit c || c == ',') c = true := by
    intro c hc
    rcases commaGroup_chars _ c hc with h | h
    · simp [h]
    · subst h; simp
  have htd : ∀ c ∈ twoDig (n % 100), pyDigit c = true := twoDig_chars _
  have hshape : amountBody n ++ r
      = commaGroup (n / 100) ++ ('.' :: (twoDig (n % 100) ++ r)) := by
    simp [amountBody, List.append_assoc]
  have htw : (amountBody n ++ r).takeWhile (fun c => pyDigit c || c == ',')
      = commaGroup (n / 100) := by
    rw [hshape, takeWhile_append_all _ _ _ hcg, List.takeWhile_cons]
    rw [show (pyDigit '.' || '.' == ',') = false from rfl]
    simp
  have hdw : (amountBody n ++ r).dropWhile (fun c => pyDigit c || c == ',')
      = '.' :: (twoDig (n % 100) ++ r) := by
    rw [hshape, dropWhile_append_all _ _ _ hcg, List.dropWhile_cons]
    rw [show (pyDigit '.' || '.' == ',') = false from rfl]
    simp
  have htkr : r.takeWhile pyDigit = [] := by
    rcases hr with rfl | ⟨d, r2, rfl, hd, _⟩
    · rfl
    · rw [List.takeWhile_cons, hd]
      simp
  have hdwr : r.dropWhile pyDigit = r := by
    rcases hr with rfl | ⟨d, r2, rfl, hd, _⟩
    · rfl
    · rw [List.dropWhile_cons, hd]
      simp
  simp only [amountGroup, htw, hdw,
    isEmpty_false_of_ne_nil (commaGroup_ne_nil (n / 100)), Bool.false_eq_true, if_false]
  rw [takeWhile_append_all _ _ _ htd, htkr, dropWhile_append_all _ _ _ htd, hdwr]
  rw [amountBody]
  simp [List.append_assoc]

theorem amountGroup_amountBody_nil (n : ℕ) :
    amountGroup (amountBody n) = some (amountBody n, []) := by
  have h := amountGroup_amountBody n [] (Or.inl rfl)
  simpa using h

theorem tailAfterParen_render (code : Line) (n t : ℕ)
    (hcode : ∀ c ∈ code, c ≠ ')') (hc0 : code ≠ []) :
    tailAfterParen (code ++ ')' :: ' ' :: '@' :: ' ' :: '₱' ::
        (amountBody n ++ ' ' :: '=' :: ' ' :: '₱' :: amountBody t)) =
      some (code, amountBody n, amountBody t) := by
  have hcq : ∀ c ∈ code, (fun c => !(c == ')')) c = true := fun c hc => by
    simp [hcode c hc]
  have h1 : (code ++ ')' :: ' ' :: '@' :: ' ' :: '₱' ::
        (amountBody n ++ ' ' :: '=' :: ' ' :: '₱' :: amountBody t)).takeWhile
        (fun c => !(c == ')')) = code := by
    rw [takeWhile_append_all _ _ _ hcq, List.takeWhile_cons]
    simp
  have h2 : (code ++ ')' :: ' ' :: '@' :: ' ' :: '₱' ::
        (amountBody n ++ ' ' :: '=' :: ' ' :: '₱' :: amountBody t)).dropWhile
        (fun c => !(c == ')')) = ')' :: ' ' :: '@' :: ' ' :: '₱' ::
        (amountBody n ++ ' ' :: '=' :: ' ' :: '₱' :: amountBody t) := by
    rw [dropWhile_append_all _ _ _ hcq, List.dropWhile_cons]
    simp
  have h3 : (' ' :: '@' :: ' ' :: '₱' ::
        (amountBody n ++ ' ' :: '=' :: ' ' :: '₱' :: amountBody t)).takeWhile pySpace
      = [' '] := by
    rw [List.takeWhile_cons, show pySpace ' ' = true from rfl, List.takeWhile_cons,
      show pySpace '@' = false from rfl]
    simp
  have h4 : (' ' :: '@' :: ' ' :: '₱' ::
        (amountBody n ++ ' ' :: '=' :: ' ' :: '₱' :: amountBody t)).dropWhile pySpace
      = '@' :: ' ' :: '₱' :: (amountBody n ++ ' ' :: '=' :: ' ' :: '₱' :: amountBody t) := by
    rw [List.dropWhile_cons, show pySpace ' ' = true from rfl, List.dropWhile_cons,
      show pySpace '@' = false from rfl]
    simp
  have h5 : (' ' :: '₱' :: (amountBody n ++ ' ' :: '=' :: ' ' :: '₱' ::
        amountBody t)).dropWhile pySpace
      = '₱' :: (amountBody n ++ ' ' :: '=' :: ' ' :: '₱' :: amountBody t) := by
    rw [List.dropWhile_cons, show pySpace ' ' = true from rfl, List.dropWhile_cons,
      show pySpace '₱' = false from rfl]
    simp
  have h6 : dropCurSym ('₱' :: (amountBody n ++ ' ' :: '=' :: ' ' :: '₱' ::
        amountBody t)) = amountBody n ++ ' ' :: '=' :: ' ' :: '₱' :: amountBody t := by
    simp [dropCurSym]
  have h7 := amountGroup_amountBody n (' ' :: '=' :: ' ' :: '₱' :: amountBody t)
    (Or.inr ⟨' ', '=' :: ' ' :: '₱' :: amountBody t, rfl, rfl, rfl⟩)
  have h8 : (' ' :: '=' :: ' ' :: '₱' :: amountBody t).dropWhile pySpace
      = '=' :: ' ' :: '₱' :: amountBody t := by
    rw [List.dropWhile_cons, show pySpace ' ' = true from rfl, List.dropWhile_cons,
      show pySpace '=' = false from rfl]
    simp
  have h9 : (' ' :: '₱' :: amountBody t).dropWhile pySpace = '₱' :: amountBody t := by
    rw [List.dropWhile_cons, show pySpace ' ' = true from rfl, List.dropWhile_cons,
      show pySpace '₱' = false from rfl]
    simp
  have h10 : dropCurSym ('₱' :: amountBody t) = amountBody t := by
    simp [dropCurSym]
  simp only [tailAfterParen, h1, h2, isEmpty_false_of_ne_nil hc0, Bool.false_eq_true,
    if_false, h3, h4, h5, h6, h7, h8, h9, h10, amountGroup_amountBody_nil]
  simp


theorem attemptAt_none_head_nospace (c : Char) (l : Line) (h : pySpace c = false) :
    attemptAt (c :: l) = none := by
  simp only [attemptAt, List.takeWhile_cons, h, Bool.false_eq_true, if_false,
    List.isEmpty_nil]
  simp

theorem attemptAt_none_lands (l : Line) (d : Char) (r : Line)
    (hd : l.dropWhile pySpace = d :: r) (hne : d ≠ '(') :
    attemptAt l = none := by
  rw [attemptAt]
  split
  · rfl
  · rw [hd]
    split
    · next u heq =>
      rw [List.cons.injEq] at heq
      exact absurd heq.1 hne
    · rfl

theorem attemptAt_success (sp u : Line) (hsp : ∀ c ∈ sp, pySpace c = true)
    (h0 : sp ≠ []) :
    attemptAt (sp ++ '(' :: u) = tailAfterParen u := by
  have htw : (sp ++ '(' :: u).takeWhile pySpace = sp := by
    rw [takeWhile_append_all _ _ _ hsp, List.takeWhile_cons,
      show pySpace '(' = false from rfl]
    simp
  have hdw : (sp ++ '(' :: u).dropWhile pySpace = '(' :: u := by
    rw [dropWhile_append_all _ _ _ hsp, List.dropWhile_cons,
      show pySpace '(' = false from rfl]
    simp
  simp only [attemptAt, htw, hdw, isEmpty_false_of_ne_nil h0, Bool.false_eq_true, if_false]

theorem lazyLoop_none : ∀ (l : Line) (g2rev : Line),
    (∀ c ∈ l, c ≠ '(') → lazyLoop g2rev l = none := by
  intro l
  induction l with
  | nil => intro g2rev _; rfl
  | cons c r ih =>
    intro g2rev h
    have hna : attemptAt (c :: r) = none := by
      rcases hdw : (c :: r).dropWhile pySpace with _ | ⟨d, r2⟩
      · rw [attemptAt]
        split
        · rfl
        · rw [hdw]
      · have hdm : d ∈ c :: r := (List.dropWhile_sublist pySpace).subset (by rw [hdw]; simp)
        exact attemptAt_none_lands _ _ _ hdw (h d hdm)
    rw [lazyLoop]
    rw [hna]
    by_cases hnl : (c == '\n') = true
    · simp [hnl]
    · simp only [Bool.not_eq_true] at hnl
      simp only [hnl, Bool.false_eq_true, if_false]
      exact ih (c :: g2rev) (fun x hx => h x (by simp [hx]))

theorem lazyLoop_through : ∀ (v : Line), ∀ (g2rev sp u g3 g4 g5 : Line),
    (∀ c ∈ v, c ≠ '(' ∧ c ≠ '\n') →
    (∀ c ∈ sp, pySpace c = true) → sp ≠ [] →
    tailAfterParen u = some (g3, g4, g5) →
    (v = [] ∨ ∃ v₀ cl, v = v₀ ++ [cl] ∧ pySpace cl = false) →
    lazyLoop g2rev (v ++ (sp ++ '(' :: u)) = some (g2rev.reverse ++ v, g3, g4, g5) := by
  intro v
  induction v with
  | nil =>
    intro g2rev sp u g3 g4 g5 _ hsp h0 ht _
    obtain ⟨s₀, sp', rfl⟩ : ∃ s₀ sp', sp = s₀ :: sp' := by
      rcases sp with _ | ⟨s₀, sp'⟩
      · exact absurd rfl h0
      · exact ⟨s₀, sp', rfl⟩
    have hat := attemptAt_success (s₀ :: sp') u hsp h0
    rw [List.cons_append] at hat
    rw [List.nil_append, List.cons_append, lazyLoop]
    rw [hat, ht]
    simp
  | cons c v' ih =>
    intro g2rev sp u g3 g4 g5 hv hsp h0 ht hlast
    rcases hlast with hnil | ⟨v₀, cl, hdec, hcl⟩
    · exact absurd hnil (by simp)
    have hlast' : v' = [] ∨ ∃ w cl', v' = w ++ [cl'] ∧ pySpace cl' = false := by
      rcases v₀ with _ | ⟨b, w⟩
      · have h2 := hdec
        rw [List.nil_append, List.cons.injEq] at h2
        exact Or.inl h2.2
      · have h2 := hdec
        rw [List.cons_append, List.cons.injEq] at h2
        exact Or.inr ⟨w, cl, h2.2, hcl⟩
    have hna : attemptAt (c :: (v' ++ (sp ++ '(' :: u))) = none := by
      by_cases hc : pySpace c = true
      · have hclmem : cl ∈ c :: v' := by rw [hdec]; simp
        have hclv' : cl ∈ v' := by
          rcases List.mem_cons.mp hclmem with h | h
          · rw [h, hc] at hcl
            simp at hcl
          · exact h
        have hdne : v'.dropWhile pySpace ≠ [] := by
          intro hnil
          rw [List.dropWhile_eq_nil_iff] at hnil
          rw [hnil cl hclv'] at hcl
          cases hcl
        rcases hd0 : v'.dropWhile pySpace with _ | ⟨d, r₀⟩
        · exact absurd hd0 hdne
        have hdm : d ∈ v' := (List.dropWhile_sublist pySpace).subset (by rw [hd0]; simp)
        have hdrop : (c :: (v' ++ (sp ++ '(' :: u))).dropWhile pySpace
            = d :: (r₀ ++ (sp ++ '(' :: u)) := by
          rw [List.dropWhile_cons, hc]
          simp only [if_true]
          rw [dropWhile_append_strong pySpace v' _ (by rw [hd0]; simp), hd0,
            List.cons_append]
        exact attemptAt_none_lands _ _ _ hdrop ((hv d (by simp [hdm])).1)
      · simp only [Bool.not_eq_true] at hc
        exact attemptAt_none_head_nospace c _ hc
    rw [List.cons_append, lazyLoop]
    rw [hna]
    have hcnl : (c == '\n') = false := by
      have h2 := (hv c (by simp)).2
      simp [h2]
    simp only [hcnl, Bool.false_eq_true, if_false]
    have hrec := ih (c :: g2rev) sp u g3 g4 g5 (fun x hx => hv x (by simp [hx])) hsp h0 ht
      hlast'
    rw [hrec]
    simp


theorem lazySearch_render (name u g3 g4 g5 : Line)
    (hname : ∀ c ∈ name, c ≠ '(' ∧ c ≠ '\n')
    (hu : ∀ c ∈ u, c ≠ '(')
    (ht : tailAfterParen u = some (g3, g4, g5)) :
    ∃ g2, lazySearch (' ' :: (name ++ ' ' :: '(' :: u)) = some (g2, g3, g4, g5) := by
  rcases hd : name.dropWhile pySpace with _ | ⟨c₀, d'⟩
  · -- the name is all blanks: the fallback attempt inside the blank run fires
    have hall : ∀ c ∈ name, pySpace c = true := List.dropWhile_eq_nil_iff.mp hd
    have htk : (' ' :: (name ++ ' ' :: '(' :: u)).takeWhile pySpace
        = ' ' :: (name ++ [' ']) := by
      rw [List.takeWhile_cons, show pySpace ' ' = true from rfl]
      simp only [if_true]
      rw [takeWhile_append_all _ _ _ hall, List.takeWhile_cons,
        show pySpace ' ' = true from rfl]
      simp only [if_true]
      rw [List.takeWhile_cons, show pySpace '(' = false from rfl]
      simp
    have hdw : (' ' :: (name ++ ' ' :: '(' :: u)).dropWhile pySpace = '(' :: u := by
      rw [List.dropWhile_cons, show pySpace ' ' = true from rfl]
      simp only [if_true]
      rw [dropWhile_append_all _ _ _ hall, List.dropWhile_cons,
        show pySpace ' ' = true from rfl]
      simp only [if_true]
      rw [List.dropWhile_cons, show pySpace '(' = false from rfl]
      simp
    have hll : lazyLoop [] ('(' :: u) = none := by
      rw [lazyLoop]
      rw [attemptAt_none_head_nospace '(' u rfl]
      show (if ('(' == '\n') = true then none else lazyLoop ('(' :: []) u) = none
      rw [if_neg (by decide)]
      exact lazyLoop_none u _ hu
    refine ⟨[], ?_⟩
    simp only [lazySearch, drop_length_takeWhile, htk, hdw, hll, ht]
    rw [if_neg (by simp), if_pos (by simp)]
    simp [ht, hll]
  · -- the name has a visible character: the lazy loop stops at the final blank run
    have hc₀ : pySpace c₀ = false := dropWhile_head_false pySpace name c₀ d' hd
    have hmemd : ∀ c ∈ name.dropWhile pySpace, c ∈ name :=
      fun c hc => (List.dropWhile_sublist pySpace).subset hc
    rcases hvrev : (name.dropWhile pySpace).reverse.dropWhile pySpace with _ | ⟨cl, vr'⟩
    · exfalso
      have hall := List.dropWhile_eq_nil_iff.mp hvrev
      have : pySpace c₀ = true := by
        refine hall c₀ ?_
        rw [List.mem_reverse, hd]
        simp
      rw [this] at hc₀
      cases hc₀
    have hclns : pySpace cl = false :=
      dropWhile_head_false pySpace (name.dropWhile pySpace).reverse cl vr' hvrev
    have hrvsp : ∀ c ∈ ((name.dropWhile pySpace).reverse.takeWhile pySpace).reverse,
        pySpace c = true := by
      intro c hc
      rw [List.mem_reverse] at hc
      exact List.mem_takeWhile_imp hc
    have hdsplit : name.dropWhile pySpace
        = (cl :: vr').reverse ++ ((name.dropWhile pySpace).reverse.takeWhile
            pySpace).reverse := by
      have h2 := List.takeWhile_append_dropWhile pySpace (name.dropWhile pySpace).reverse
      rw [hvrev] at h2
      have h3 := congrArg List.reverse h2
      rw [List.reverse_append, List.reverse_reverse] at h3
      exact h3.symm
    have hw : name = name.takeWhile pySpace ++ name.dropWhile pySpace :=
      (List.takeWhile_append_dropWhile pySpace name).symm
    have hwsp : ∀ c ∈ name.takeWhile pySpace, pySpace c = true :=
      fun c hc => List.mem_takeWhile_imp hc
    have hvchars : ∀ c ∈ (cl :: vr').reverse, c ≠ '(' ∧ c ≠ '\n' := by
      intro c hc
      refine hname c ?_
      refine hmemd c ?_
      rw [hdsplit]
      simp only [List.mem_append, List.mem_reverse, List.mem_cons]
      rw [List.mem_reverse, List.mem_cons] at hc
      tauto
    have hvhead : ∃ v₂, (cl :: vr').reverse = c₀ :: v₂ := by
      rcases hve : (cl :: vr').reverse with _ | ⟨b, v₂⟩
      · exact absurd hve (by simp)
      · have h2 := hdsplit
        rw [hve, hd, List.cons_append, List.cons.injEq] at h2
        exact ⟨v₂, by rw [h2.1]⟩
    obtain ⟨v₂, hv₂⟩ := hvhead
    have htk : (' ' :: (name ++ ' ' :: '(' :: u)).takeWhile pySpace
        = ' ' :: name.takeWhile pySpace := by
      rw [List.takeWhile_cons, show pySpace ' ' = true from rfl]
      simp only [if_true]
      conv_lhs => rw [hw]
      rw [List.append_assoc, takeWhile_append_all _ _ _ hwsp, hd, List.cons_append,
        List.takeWhile_cons, hc₀]
      simp
    have hdw : (' ' :: (name ++ ' ' :: '(' :: u)).dropWhile pySpace
        = name.dropWhile pySpace ++ ' ' :: '(' :: u := by
      rw [List.dropWhile_cons, show pySpace ' ' = true from rfl]
      simp only [if_true]
      conv_lhs => rw [hw]
      rw [List.append_assoc, dropWhile_append_all _ _ _ hwsp, hd, List.cons_append,
        List.dropWhile_cons, hc₀]
      simp
    have hshape : name.dropWhile pySpace ++ ' ' :: '(' :: u
        = (cl :: vr').reverse ++
          ((((name.dropWhile pySpace).reverse.takeWhile pySpace).reverse ++ [' '])
            ++ '(' :: u) := by
      conv_lhs => rw [hdsplit]
      simp [List.append_assoc]
    have hll := lazyLoop_through (cl :: vr').reverse []
      (((name.dropWhile pySpace).reverse.takeWhile pySpace).reverse ++ [' ']) u g3 g4 g5
      hvchars
      (by
        intro c hc
        rcases List.mem_append.mp hc with h | h
        · exact hrvsp c h
        · simp only [List.mem_singleton] at h
          subst h
          rfl)
      (by simp)
      ht
      (Or.inr ⟨vr'.reverse, cl, by simp, hclns⟩)
    refine ⟨(cl :: vr').reverse, ?_⟩
    simp only [lazySearch, drop_length_takeWhile, hdw, hshape, hll]
    rw [if_neg (by rw [htk]; simp)]
    simp

theorem itemMatch_render_gen (name u : Line) (q : ℕ) (g3 g4 g5 : Line)
    (hname : ∀ c ∈ name, c ≠ '(' ∧ c ≠ '\n')
    (hu : ∀ c ∈ u, c ≠ '(')
    (ht : tailAfterParen u = some (g3, g4, g5)) :
    ∃ g2, itemMatch (natDigits q ++ ' ' :: 'x' :: ' ' :: (name ++ ' ' :: '(' :: u)) =
      some ⟨natDigits q, g2, g3, g4, g5⟩ := by
  obtain ⟨g2, hls⟩ := lazySearch_render name u g3 g4 g5 hname hu ht
  have hdg : ∀ c ∈ natDigits q, pyDigit c = true := natDigits_all_digit q
  have htk : (natDigits q ++ ' ' :: 'x' :: ' ' :: (name ++ ' ' :: '(' :: u)).takeWhile
      pyDigit = natDigits q := by
    rw [takeWhile_append_all _ _ _ hdg, List.takeWhile_cons,
      show pyDigit ' ' = false from rfl]
    simp
  have hdw : (natDigits q ++ ' ' :: 'x' :: ' ' :: (name ++ ' ' :: '(' :: u)).dropWhile
      pyDigit = ' ' :: 'x' :: ' ' :: (name ++ ' ' :: '(' :: u) := by
    rw [dropWhile_append_all _ _ _ hdg, List.dropWhile_cons,
      show pyDigit ' ' = false from rfl]
    simp
  have htk2 : (' ' :: 'x' :: ' ' :: (name ++ ' ' :: '(' :: u)).takeWhile pySpace
      = [' '] := by
    rw [List.takeWhile_cons, show pySpace ' ' = true from rfl, List.takeWhile_cons,
      show pySpace 'x' = false from rfl]
    simp
  have hdw2 : (' ' :: 'x' :: ' ' :: (name ++ ' ' :: '(' :: u)).dropWhile pySpace
      = 'x' :: ' ' :: (name ++ ' ' :: '(' :: u) := by
    rw [List.dropWhile_cons, show pySpace ' ' = true from rfl, List.dropWhile_cons,
      show pySpace 'x' = false from rfl]
    simp
  refine ⟨g2, ?_⟩
  simp only [itemMatch, htk, hdw, htk2, hdw2,
    isEmpty_false_of_ne_nil (natDigits_ne_nil q), Bool.false_eq_true, if_false, hls]
  simp


theorem itemMatch_none_cases (l : Line)
    (hcase : l.dropWhile pyDigit = [] ∨
      ∃ d r, l.dropWhile pyDigit = d :: r ∧ pySpace d = false) :
    itemMatch l = none := by
  by_cases hg1 : (l.takeWhile pyDigit).isEmpty = true
  · simp only [itemMatch, hg1]
    simp
  · rcases hcase with h0 | ⟨d, r, hdr, hdns⟩
    · simp only [itemMatch, h0]
      simp [hg1]
    · have htk : (l.dropWhile pyDigit).takeWhile pySpace = [] := by
        rw [hdr, List.takeWhile_cons, hdns]
        simp
      simp only [itemMatch, htk]
      simp [hg1]

theorem itemMatch_head_nondigit (c : Char) (r : Line) (h1 : pyDigit c = false)
    (h2 : pySpace c = false) : itemMatch (c :: r) = none :=
  itemMatch_none_cases _ (Or.inr ⟨c, r, by rw [List.dropWhile_cons, h1]; simp, h2⟩)

theorem itemMatch_now (l : Line) (h : ∀ c ∈ l, c.isDigit = true ∨ c = '_') :
    itemMatch l = none := by
  refine itemMatch_none_cases l ?_
  rcases hdw : l.dropWhile pyDigit with _ | ⟨d, r⟩
  · exact Or.inl rfl
  · have hdm : d ∈ l := (List.dropWhile_sublist pyDigit).subset (by rw [hdw]; simp)
    have hdnd : pyDigit d = false := dropWhile_head_false pyDigit l d r hdw
    have hdu : d = '_' := by
      rcases h d hdm with h2 | h2
      · have hdnd' : d.isDigit = false := hdnd
        rw [h2] at hdnd'
        cases hdnd'
      · exact h2
    subst hdu
    exact Or.inr ⟨'_', r, rfl, by decide⟩

theorem lineToItem_none (l : Line) (h : itemMatch l = none) : lineToItem l = .ok none := by
  simp [lineToItem, h]

theorem beq_symm_false (c d : Char) (h : (c == d) = false) : (d == c) = false := by
  rcases h2 : (d == c) with _ | _
  · rfl
  · have h3 : d = c := by simpa using h2
    subst h3
    simp at h

theorem startsWithL_cons_ne (c d : Char) (p l : Line) (h : (c == d) = false) :
    startsWithL (c :: p) (d :: l) = false := by
  rw [startsWithL, show ((c :: p).isPrefixOf (d :: l)) = (c == d && p.isPrefixOf l)
    from rfl, h]
  rfl

theorem startsWithL_nil (c : Char) (p : Line) : startsWithL (c :: p) [] = false := rfl

theorem isPrefixOf_append : ∀ (p q x : Line), p.isPrefixOf q = true →
    p.isPrefixOf (q ++ x) = true
  | [], _, _, _ => by simp [List.isPrefixOf]
  | a :: p', b :: q', x, h => by
    rw [List.cons_append]
    rw [show ((a :: p').isPrefixOf (b :: q')) = (a == b && p'.isPrefixOf q') from rfl] at h
    rw [show ((a :: p').isPrefixOf (b :: (q' ++ x)))
      = (a == b && p'.isPrefixOf (q' ++ x)) from rfl]
    have h12 : (a == b) = true ∧ p'.isPrefixOf q' = true := by simpa using h
    rw [h12.1, isPrefixOf_append p' q' x h12.2]
    rfl
  | a :: p', [], x, h => by
    exact absurd h (by simp [List.isPrefixOf])

theorem startsWithL_append_l (p q x : Line) (h : p.isPrefixOf q = true) :
    startsWithL p (q ++ x) = true := isPrefixOf_append p q x h

theorem afterColon_pre (pre x c2 : Line)
    (hpre : pre.dropWhile (fun c => !(c == ':')) = ':' :: c2) :
    afterColon (pre ++ x) = c2 ++ x := by
  rw [afterColon, dropWhile_append_strong _ pre x (by rw [hpre]; simp), hpre,
    List.cons_append, List.drop_succ_cons, List.drop_zero]

theorem amountBody_ne (n : ℕ) (d : Char) (hd : pyDigit d = false) (h1 : d ≠ ',')
    (h2 : d ≠ '.') : ∀ c ∈ amountBody n, c ≠ d := by
  intro c hc hcd
  subst hcd
  rcases amountBody_chars n c hc with h | h | h
  · rw [h] at hd
    cases hd
  · exact h1 h
  · exact h2 h

theorem renderLine_shape (e : OrderEntry) (n q : ℕ)
    (hp : e.price = (n : ℚ) / 100) (hq : e.qty = (q : ℤ)) :
    renderLine e = natDigits q ++ ' ' :: 'x' :: ' ' :: (e.name ++ ' ' :: '(' ::
      (e.code ++ ')' :: ' ' :: '@' :: ' ' :: '₱' ::
        (amountBody n ++ ' ' :: '=' :: ' ' :: '₱' :: amountBody (n * q)))) := by
  rw [renderLine, hp, hq]
  have h1 : (((q : ℤ) : ℚ)) = (q : ℚ) := by push_cast; ring
  have h2 : (n : ℚ) / 100 * ((q : ℤ) : ℚ) = ((n * q : ℕ) : ℚ) / 100 := by push_cast; ring
  rw [h2, formatCurrency_cent, formatCurrency_cent]
  rw [show intRepr (q : ℤ) = natDigits q from rfl]
  simp only [show (" x ".data : Line) = [' ', 'x', ' '] from rfl,
    show (" (".data : Line) = [' ', '('] from rfl,
    show (") @ ".data : Line) = [')', ' ', '@', ' '] from rfl,
    show (" = ".data : Line) = [' ', '=', ' '] from rfl,
    List.append_assoc, List.cons_append, List.nil_append]

theorem lineToItem_renderLine (e : OrderEntry) (n q : ℕ)
    (hwf : wfEntry e) (hp : e.price = (n : ℚ) / 100) (hq : e.qty = (q : ℤ)) :
    ∃ nm, lineToItem (renderLine e)
      = .ok (some ⟨e.code, nm, (q : ℤ), (n : ℚ) / 100, ((n * q : ℕ) : ℚ) / 100⟩) := by
  obtain ⟨hnm, hcd, hc0, hstrip, _, _⟩ := hwf
  have hname' : ∀ c ∈ e.name, c ≠ '(' ∧ c ≠ '\n' := fun c hc =>
    ⟨(hnm c hc).1, (hnm c hc).2.2⟩
  have hu : ∀ c ∈ e.code ++ ')' :: ' ' :: '@' :: ' ' :: '₱' ::
      (amountBody n ++ ' ' :: '=' :: ' ' :: '₱' :: amountBody (n * q)), c ≠ '(' := by
    intro c hc
    rcases List.mem_append.mp hc with h | h
    · exact (hcd c h).1
    · simp only [List.mem_cons, List.mem_append] at h
      rcases h with rfl | rfl | rfl | rfl | rfl | (h | rfl | rfl | rfl | rfl | h)
      · decide
      · decide
      · decide
      · decide
      · decide
      · exact amountBody_ne n '(' rfl (by decide) (by decide) c h
      · decide
      · decide
      · decide
      · decide
      · exact amountBody_ne (n * q) '(' rfl (by decide) (by decide) c h
  obtain ⟨g2, him⟩ := itemMatch_render_gen e.name _ q e.code (amountBody n)
    (amountBody (n * q)) hname' hu
    (tailAfterParen_render e.code n (n * q) (fun c hc => (hcd c hc).2.1) hc0)
  rw [renderLine_shape e n q hp hq]
  refine ⟨asciiStrip g2, ?_⟩
  simp only [lineToItem, him, pyFloat_cent]
  rw [hstrip]
  rw [show digitsVal (natDigits q) = q from digitsVal_natDigits q]

theorem order_subtotal_cent : ∀ (es : List OrderEntry), (∀ e ∈ es, wfEntry e) →
    ∃ S : ℕ, order_subtotal es = (S : ℚ) / 100
  | [], _ => ⟨0, by simp [order_subtotal]⟩
  | e :: es', h => by
    obtain ⟨S', hS'⟩ := order_subtotal_cent es' (fun x hx => h x (by simp [hx]))
    obtain ⟨_, _, _, _, ⟨n, hp⟩, ⟨q, hq⟩⟩ := h e (by simp)
    refine ⟨n * q + S', ?_⟩
    rw [order_subtotal, List.map_cons, List.sum_cons,
      show (es'.map (fun e => e.price * (e.qty : ℚ))).sum = order_subtotal es' from rfl,
      hS', hp, hq]
    push_cast
    ring

theorem items_of_render : ∀ (es : List OrderEntry), (∀ e ∈ es, wfEntry e) →
    ∃ items : List Item,
      ((es.map renderLine).filterMap (fun L =>
        match lineToItem L with
        | .ok o => o
        | .error _ => none)) = items ∧
      items.map (fun it => (it.code, it.qty, it.price, it.total))
        = es.map (fun e => (e.code, e.qty, e.price, e.price * (e.qty : ℚ)))
  | [], _ => ⟨[], rfl, rfl⟩
  | e :: es', h => by
    obtain ⟨items', hfm, hmap⟩ := items_of_render es' (fun x hx => h x (by simp [hx]))
    obtain ⟨_, _, _, _, ⟨n, hp⟩, ⟨q, hq⟩⟩ := h e (by simp)
    obtain ⟨nm, hli⟩ := lineToItem_renderLine e n q (h e (by simp)) hp hq
    refine ⟨⟨e.code, nm, (q : ℤ), (n : ℚ) / 100, ((n * q : ℕ) : ℚ) / 100⟩ :: items',
      ?_, ?_⟩
    · rw [List.map_cons, List.filterMap_cons, hli, hfm]
    · rw [List.map_cons, List.map_cons, hmap, hp, hq]
      have h2 : (n : ℚ) / 100 * ((q : ℤ) : ℚ) = ((n * q : ℕ) : ℚ) / 100 := by
        push_cast
        ring
      rw [h2]


theorem lastN10_of_five (X : List Line) (a b c d e : Line) :
    lastN 10 (X ++ [a, b, c, d, e]) = X.drop (X.length - 5) ++ [a, b, c, d, e] := by
  rw [lastN]
  have h1 : (X ++ [a, b, c, d, e]).length - 10 = X.length - 5 := by
    simp only [List.length_append, List.length_cons, List.length_nil]
    omega
  rw [h1, List.drop_append_eq_append_drop]
  have h2 : X.length - 5 - X.length = 0 := by omega
  rw [h2, List.drop_zero]

theorem filterMap_lineToItem_none (A B : List Line)
    (hA : ∀ L ∈ A, itemMatch L = none) :
    (A ++ B).filterMap (fun L => match lineToItem L with
      | .ok o => o
      | .error _ => none)
    = B.filterMap (fun L => match lineToItem L with
      | .ok o => o
      | .error _ => none) := by
  induction A with
  | nil => rfl
  | cons L A' ih =>
    simp only [List.cons_append, List.filterMap_cons, lineToItem_none L (hA L (by simp))]
    exact ih (fun M hM => hA M (by simp [hM]))

theorem filterMap_lineToItem_nil (A : List Line) (hA : ∀ L ∈ A, itemMatch L = none) :
    A.filterMap (fun L => match lineToItem L with
      | .ok o => o
      | .error _ => none) = [] := by
  have h2 := filterMap_lineToItem_none A [] hA
  simpa using h2

theorem scal_nomatch_head (d : Char) (l : Line) (h1 : ('S' == d) = false)
    (h2 : ('P' == d) = false) (h3 : ('C' == d) = false) :
    startsWithL "Subtotal:".data (d :: l) = false ∧
    startsWithL "Paid:".data (d :: l) = false ∧
    startsWithL "Change:".data (d :: l) = false :=
  ⟨startsWithL_cons_ne 'S' d "ubtotal:".data l h1,
   startsWithL_cons_ne 'P' d "aid:".data l h2,
   startsWithL_cons_ne 'C' d "hange:".data l h3⟩

theorem scal_nomatch_nil :
    startsWithL "Subtotal:".data [] = false ∧ startsWithL "Paid:".data [] = false ∧
    startsWithL "Change:".data [] = false := by
  refine ⟨?_, ?_, ?_⟩ <;> rfl

theorem scalar_line_value (pre : Line) (m : ℕ)
    (hpre : pre.dropWhile (fun c => !(c == ':')) = [':', ' ']) :
    pyFloat (stripCur (asciiStrip (afterColon (pre ++ '₱' :: amountBody m))))
      = some ((m : ℚ) / 100) := by
  rw [afterColon_pre pre _ [' '] hpre, List.singleton_append, asciiStrip_cons_space,
    asciiStrip_eq_self, pyFloat_curr_cent]
  intro c hc
  rcases List.mem_cons.mp hc with rfl | hc2
  · decide
  · exact amountBody_nospace m c hc2

theorem render_scal_nomatch (e : OrderEntry) (n q : ℕ)
    (hp : e.price = (n : ℚ) / 100) (hq : e.qty = (q : ℤ)) :
    startsWithL "Subtotal:".data (renderLine e) = false ∧
    startsWithL "Paid:".data (renderLine e) = false ∧
    startsWithL "Change:".data (renderLine e) = false := by
  rw [renderLine_shape e n q hp hq]
  obtain ⟨dc, dr, hdc, hdig⟩ := natDigits_head_digit q
  rw [hdc, List.cons_append]
  have hdig' : dc.isDigit = true := hdig
  exact scal_nomatch_head dc _
    (beq_symm_false dc 'S' (beq_false_of_isDigit hdig' (by decide)))
    (beq_symm_false dc 'P' (beq_false_of_isDigit hdig' (by decide)))
    (beq_symm_false dc 'C' (beq_false_of_isDigit hdig' (by decide)))

theorem now_scal_nomatch (now : Line) (hnow : ∀ c ∈ now, c.isDigit = true ∨ c = '_') :
    startsWithL "Subtotal:".data now = false ∧
    startsWithL "Paid:".data now = false ∧
    startsWithL "Change:".data now = false := by
  rcases now with _ | ⟨c, r⟩
  · exact scal_nomatch_nil
  · rcases hnow c (by simp) with h | rfl
    · exact scal_nomatch_head c r
        (beq_symm_false c 'S' (beq_false_of_isDigit h (by decide)))
        (beq_symm_false c 'P' (beq_false_of_isDigit h (by decide)))
        (beq_symm_false c 'C' (beq_false_of_isDigit h (by decide)))
    · exact scal_nomatch_head '_' r (by decide) (by decide) (by decide)

theorem parse_shape (X : List Line) (items : List Item) (S paidN chgN : ℕ)
    (tax tot : Line)
    (hcoll : collectItems (X ++ ["Subtotal: ".data ++ '₱' :: amountBody S,
        "Tax: ".data ++ tax, "Total: ".data ++ tot,
        "Paid: ".data ++ '₱' :: amountBody paidN,
        "Change: ".data ++ '₱' :: amountBody chgN]) = Except.ok items)
    (hX : ∀ L ∈ X.drop (X.length - 5),
        startsWithL "Subtotal:".data L = false ∧ startsWithL "Paid:".data L = false ∧
        startsWithL "Change:".data L = false) :
    ∃ emp0, parseReceiptLines (X ++ ["Subtotal: ".data ++ '₱' :: amountBody S,
        "Tax: ".data ++ tax, "Total: ".data ++ tot,
        "Paid: ".data ++ '₱' :: amountBody paidN,
        "Change: ".data ++ '₱' :: amountBody chgN]) = Except.ok
      ⟨emp0, items, some ((S : ℚ) / 100), some ((paidN : ℚ) / 100),
        some ((chgN : ℚ) / 100)⟩ := by
  have hTsub : startsWithL "Subtotal:".data ("Tax: ".data ++ tax) = false := by
    rw [show ("Tax: ".data ++ tax : Line) = 'T' :: ("ax: ".data ++ tax) from rfl]
    exact startsWithL_cons_ne 'S' 'T' _ _ (by decide)
  have hOsub : startsWithL "Subtotal:".data ("Total: ".data ++ tot) = false := by
    rw [show ("Total: ".data ++ tot : Line) = 'T' :: ("otal: ".data ++ tot) from rfl]
    exact startsWithL_cons_ne 'S' 'T' _ _ (by decide)
  have hPsub : startsWithL "Subtotal:".data ("Paid: ".data ++ '₱' :: amountBody paidN)
      = false := by
    rw [show ("Paid: ".data ++ '₱' :: amountBody paidN : Line)
      = 'P' :: ("aid: ".data ++ '₱' :: amountBody paidN) from rfl]
    exact startsWithL_cons_ne 'S' 'P' _ _ (by decide)
  have hCsub : startsWithL "Subtotal:".data ("Change: ".data ++ '₱' :: amountBody chgN)
      = false := by
    rw [show ("Change: ".data ++ '₱' :: amountBody chgN : Line)
      = 'C' :: ("hange: ".data ++ '₱' :: amountBody chgN) from rfl]
    exact startsWithL_cons_ne 'S' 'C' _ _ (by decide)
  have hSpaid : startsWithL "Paid:".data ("Subtotal: ".data ++ '₱' :: amountBody S)
      = false := by
    rw [show ("Subtotal: ".data ++ '₱' :: amountBody S : Line)
      = 'S' :: ("ubtotal: ".data ++ '₱' :: amountBody S) from rfl]
    exact startsWithL_cons_ne 'P' 'S' _ _ (by decide)
  have hTpaid : startsWithL "Paid:".data ("Tax: ".data ++ tax) = false := by
    rw [show ("Tax: ".data ++ tax : Line) = 'T' :: ("ax: ".data ++ tax) from rfl]
    exact startsWithL_cons_ne 'P' 'T' _ _ (by decide)
  have hOpaid : startsWithL "Paid:".data ("Total: ".data ++ tot) = false := by
    rw [show ("Total: ".data ++ tot : Line) = 'T' :: ("otal: ".data ++ tot) from rfl]
    exact startsWithL_cons_ne 'P' 'T' _ _ (by decide)
  have hCpaid : startsWithL "Paid:".data ("Change: ".data ++ '₱' :: amountBody chgN)
      = false := by
    rw [show ("Change: ".data ++ '₱' :: amountBody chgN : Line)
      = 'C' :: ("hange: ".data ++ '₱' :: amountBody chgN) from rfl]
    exact startsWithL_cons_ne 'P' 'C' _ _ (by decide)
  have hSchg : startsWithL "Change:".data ("Subtotal: ".data ++ '₱' :: amountBody S)
      = false := by
    rw [show ("Subtotal: ".data ++ '₱' :: amountBody S : Line)
      = 'S' :: ("ubtotal: ".data ++ '₱' :: amountBody S) from rfl]
    exact startsWithL_cons_ne 'C' 'S' _ _ (by decide)
  have hTchg : startsWithL "Change:".data ("Tax: ".data ++ tax) = false := by
    rw [show ("Tax: ".data ++ tax : Line) = 'T' :: ("ax: ".data ++ tax) from rfl]
    exact startsWithL_cons_ne 'C' 'T' _ _ (by decide)
  have hOchg : startsWithL "Change:".data ("Total: ".data ++ tot) = false := by
    rw [show ("Total: ".data ++ tot : Line) = 'T' :: ("otal: ".data ++ tot) from rfl]
    exact startsWithL_cons_ne 'C' 'T' _ _ (by decide)
  have hPchg : startsWithL "Change:".data ("Paid: ".data ++ '₱' :: amountBody paidN)
      = false := by
    rw [show ("Paid: ".data ++ '₱' :: amountBody paidN : Line)
      = 'P' :: ("aid: ".data ++ '₱' :: amountBody paidN) from rfl]
    exact startsWithL_cons_ne 'C' 'P' _ _ (by decide)
  have hsubv : scanScalar "Subtotal:".data (lastN 10
      (X ++ ["Subtotal: ".data ++ '₱' :: amountBody S,
        "Tax: ".data ++ tax, "Total: ".data ++ tot,
        "Paid: ".data ++ '₱' :: amountBody paidN,
        "Change: ".data ++ '₱' :: amountBody chgN])) = some ((S : ℚ) / 100) := by
    rw [lastN10_of_five]
    rw [scanScalar_split "Subtotal:".data (X.drop (X.length - 5))
      ["Tax: ".data ++ tax, "Total: ".data ++ tot,
       "Paid: ".data ++ '₱' :: amountBody paidN,
       "Change: ".data ++ '₱' :: amountBody chgN]
      ("Subtotal: ".data ++ '₱' :: amountBody S)
      (startsWithL_append_l _ _ _ (by decide))
      (fun M hM => (hX M hM).1)
      (fun M hM => by
        simp only [List.mem_cons, List.not_mem_nil, or_false] at hM
        rcases hM with rfl | rfl | rfl | rfl
        · exact hTsub
        · exact hOsub
        · exact hPsub
        · exact hCsub)]
    exact scalar_line_value "Subtotal: ".data S (by decide)
  have hpaidv : scanScalar "Paid:".data (lastN 10
      (X ++ ["Subtotal: ".data ++ '₱' :: amountBody S,
        "Tax: ".data ++ tax, "Total: ".data ++ tot,
        "Paid: ".data ++ '₱' :: amountBody paidN,
        "Change: ".data ++ '₱' :: amountBody chgN])) = some ((paidN : ℚ) / 100) := by
    rw [lastN10_of_five]
    have h5 : X.drop (X.length - 5) ++ ["Subtotal: ".data ++ '₱' :: amountBody S,
        "Tax: ".data ++ tax, "Total: ".data ++ tot,
        "Paid: ".data ++ '₱' :: amountBody paidN,
        "Change: ".data ++ '₱' :: amountBody chgN]
      = (X.drop (X.length - 5) ++ ["Subtotal: ".data ++ '₱' :: amountBody S,
          "Tax: ".data ++ tax, "Total: ".data ++ tot])
        ++ ("Paid: ".data ++ '₱' :: amountBody paidN)
          :: ["Change: ".data ++ '₱' :: amountBody chgN] := by
      simp
    rw [h5, scanScalar_split "Paid:".data
      (X.drop (X.length - 5) ++ ["Subtotal: ".data ++ '₱' :: amountBody S,
        "Tax: ".data ++ tax, "Total: ".data ++ tot])
      ["Change: ".data ++ '₱' :: amountBody chgN]
      ("Paid: ".data ++ '₱' :: amountBody paidN)
      (startsWithL_append_l _ _ _ (by decide))
      (fun M hM => by
        rcases List.mem_append.mp hM with h | h
        · exact (hX M h).2.1
        · simp only [List.mem_cons, List.not_mem_nil, or_false] at h
          rcases h with rfl | rfl | rfl
          · exact hSpaid
          · exact hTpaid
          · exact hOpaid)
      (fun M hM => by
        simp only [List.mem_cons, List.not_mem_nil, or_false] at hM
        rcases hM with rfl
        exact hCpaid)]
    exact scalar_line_value "Paid: ".data paidN (by decide)
  have hchgv : scanScalar "Change:".data (lastN 10
      (X ++ ["Subtotal: ".data ++ '₱' :: amountBody S,
        "Tax: ".data ++ tax, "Total: ".data ++ tot,
        "Paid: ".data ++ '₱' :: amountBody paidN,
        "Change: ".data ++ '₱' :: amountBody chgN])) = some ((chgN : ℚ) / 100) := by
    rw [lastN10_of_five]
    have h5 : X.drop (X.length - 5) ++ ["Subtotal: ".data ++ '₱' :: amountBody S,
        "Tax: ".data ++ tax, "Total: ".data ++ tot,
        "Paid: ".data ++ '₱' :: amountBody paidN,
        "Change: ".data ++ '₱' :: amountBody chgN]
      = (X.drop (X.length - 5) ++ ["Subtotal: ".data ++ '₱' :: amountBody S,
          "Tax: ".data ++ tax, "Total: ".data ++ tot,
          "Paid: ".data ++ '₱' :: amountBody paidN])
        ++ ("Change: ".data ++ '₱' :: amountBody chgN) :: [] := by
      simp
    rw [h5, scanScalar_split "Change:".data
      (X.drop (X.length - 5) ++ ["Subtotal: ".data ++ '₱' :: amountBody S,
        "Tax: ".data ++ tax, "Total: ".data ++ tot,
        "Paid: ".data ++ '₱' :: amountBody paidN])
      []
      ("Change: ".data ++ '₱' :: amountBody chgN)
      (startsWithL_append_l _ _ _ (by decide))
      (fun M hM => by
        rcases List.mem_append.mp hM with h | h
        · exact (hX M h).2.2
        · simp only [List.mem_cons, List.not_mem_nil, or_false] at h
          rcases h with rfl | rfl | rfl | rfl
          · exact hSchg
          · exact hTchg
          · exact hOchg
          · exact hPchg)
      (fun M hM => by simp at hM)]
    exact scalar_line_value "Change: ".data chgN (by decide)
  refine ⟨(X ++ ["Subtotal: ".data ++ '₱' :: amountBody S,
      "Tax: ".data ++ tax, "Total: ".data ++ tot,
      "Paid: ".data ++ '₱' :: amountBody paidN,
      "Change: ".data ++ '₱' :: amountBody chgN]).foldl (fun acc L =>
        if startsWithL "Employee:".data L then some (asciiStrip (afterColon L)) else acc)
      none, ?_⟩
  simp only [parseReceiptLines, hcoll]
  rw [hsubv, hpaidv, hchgv]


theorem collectItems_eq_filterMap2 (ls : List Line)
    (hok : ∀ L ∈ ls, lineToItem L ≠ .error ()) :
    collectItems ls =
      .ok (ls.filterMap (fun L =>
        match lineToItem L with
        | .ok o => o
        | .error _ => none)) := by
  induction ls with
  | nil => rfl
  | cons L t ih =>
    rcases hL : lineToItem L with e | o
    · cases e
      exact absurd hL (hok L (by simp))
    · have iht := ih (fun M hM => hok M (by simp [hM]))
      cases o with
      | none => simp [collectItems, hL, List.filterMap_cons, iht]
      | some it => simp [collectItems, hL, List.filterMap_cons, iht]

theorem parse_render_core (es : List OrderEntry) (S paidN chgN : ℕ)
    (employee : Option Line) (now : Line)
    (hes : ∀ e ∈ es, wfEntry e)
    (hnow : ∀ c ∈ now, c.isDigit = true ∨ c = '_')
    (hS : order_subtotal es = (S : ℚ) / 100) :
    ∃ p, parseReceiptLines (renderReceipt es ((paidN : ℚ) / 100) ((chgN : ℚ) / 100)
        employee now) = .ok p ∧
      p.items.map (fun it => (it.code, it.qty, it.price, it.total))
        = es.map (fun e => (e.code, e.qty, e.price, e.price * (e.qty : ℚ))) ∧
      p.subtotal = some (order_subtotal es) ∧
      p.paid = some ((paidN : ℚ) / 100) ∧
      p.change = some ((chgN : ℚ) / 100) := by
  rw [renderReceipt, hS, formatCurrency_cent S, formatCurrency_cent paidN,
    formatCurrency_cent chgN]
  obtain ⟨items, hfm, hmap⟩ := items_of_render es hes
  have hE1 : itemMatch ("Employee: ".data ++ pyShowOpt employee) = none := by
    rw [show ("Employee: ".data ++ pyShowOpt employee : Line)
      = 'E' :: ("mployee: ".data ++ pyShowOpt employee) from rfl]
    exact itemMatch_head_nondigit 'E' _ (by decide) (by decide)
  have hNowIM : itemMatch now = none := itemMatch_now now hnow
  have hSubIM : itemMatch ("Subtotal: ".data ++ '₱' :: amountBody S) = none := by
    rw [show ("Subtotal: ".data ++ '₱' :: amountBody S : Line)
      = 'S' :: ("ubtotal: ".data ++ '₱' :: amountBody S) from rfl]
    exact itemMatch_head_nondigit 'S' _ (by decide) (by decide)
  have hTaxIM : itemMatch ("Tax: ".data ++ formatCurrency 0) = none := by
    rw [show ("Tax: ".data ++ formatCurrency 0 : Line)
      = 'T' :: ("ax: ".data ++ formatCurrency 0) from rfl]
    exact itemMatch_head_nondigit 'T' _ (by decide) (by decide)
  have hTotIM : itemMatch ("Total: ".data ++ formatCurrency ((S : ℚ) / 100 + 0))
      = none := by
    rw [show ("Total: ".data ++ formatCurrency ((S : ℚ) / 100 + 0) : Line)
      = 'T' :: ("otal: ".data ++ formatCurrency ((S : ℚ) / 100 + 0)) from rfl]
    exact itemMatch_head_nondigit 'T' _ (by decide) (by decide)
  have hPaidIM : itemMatch ("Paid: ".data ++ '₱' :: amountBody paidN) = none := by
    rw [show ("Paid: ".data ++ '₱' :: amountBody paidN : Line)
      = 'P' :: ("aid: ".data ++ '₱' :: amountBody paidN) from rfl]
    exact itemMatch_head_nondigit 'P' _ (by decide) (by decide)
  have hChgIM : itemMatch ("Change: ".data ++ '₱' :: amountBody chgN) = none := by
    rw [show ("Change: ".data ++ '₱' :: amountBody chgN : Line)
      = 'C' :: ("hange: ".data ++ '₱' :: amountBody chgN) from rfl]
    exact itemMatch_head_nondigit 'C' _ (by decide) (by decide)
  have hAim : ∀ L ∈ (["POS System Management".data,
      "Employee: ".data ++ pyShowOpt employee, now, []] : List Line),
      itemMatch L = none := by
    intro L hL
    simp only [List.mem_cons, List.not_mem_nil, or_false] at hL
    rcases hL with rfl | rfl | rfl | rfl
    · decide
    · exact hE1
    · exact hNowIM
    · decide
  have h5im : ∀ L ∈ (([] : Line) :: ["Subtotal: ".data ++ '₱' :: amountBody S,
      "Tax: ".data ++ formatCurrency 0,
      "Total: ".data ++ formatCurrency ((S : ℚ) / 100 + 0),
      "Paid: ".data ++ '₱' :: amountBody paidN,
      "Change: ".data ++ '₱' :: amountBody chgN]),
      itemMatch L = none := by
    intro L hL
    simp only [List.mem_cons, List.not_mem_nil, or_false] at hL
    rcases hL with rfl | rfl | rfl | rfl | rfl | rfl
    · decide
    · exact hSubIM
    · exact hTaxIM
    · exact hTotIM
    · exact hPaidIM
    · exact hChgIM
  have hMnoerr : ∀ L ∈ es.map renderLine, lineToItem L ≠ Except.error () := by
    intro L hL
    rw [List.mem_map] at hL
    obtain ⟨e, he, rfl⟩ := hL
    obtain ⟨_, _, _, _, ⟨n, hp⟩, ⟨q, hq⟩⟩ := hes e he
    obtain ⟨nm, hli⟩ := lineToItem_renderLine e n q (hes e he) hp hq
    rw [hli]
    simp
  have hassoc : ((["POS System Management".data,
        "Employee: ".data ++ pyShowOpt employee, now, []] ++ es.map renderLine) ++ [[]])
      ++ ["Subtotal: ".data ++ '₱' :: amountBody S,
          "Tax: ".data ++ formatCurrency 0,
          "Total: ".data ++ formatCurrency ((S : ℚ) / 100 + 0),
          "Paid: ".data ++ '₱' :: amountBody paidN,
          "Change: ".data ++ '₱' :: amountBody chgN]
    = (["POS System Management".data,
        "Employee: ".data ++ pyShowOpt employee, now, []] : List Line)
      ++ (es.map renderLine ++ (([] : Line) :: ["Subtotal: ".data ++ '₱' :: amountBody S,
          "Tax: ".data ++ formatCurrency 0,
          "Total: ".data ++ formatCurrency ((S : ℚ) / 100 + 0),
          "Paid: ".data ++ '₱' :: amountBody paidN,
          "Change: ".data ++ '₱' :: amountBody chgN])) := by
    simp
  have hok : ∀ L ∈ ((["POS System Management".data,
      "Employee: ".data ++ pyShowOpt employee, now, []] ++ es.map renderLine) ++ [[]])
      ++ ["Subtotal: ".data ++ '₱' :: amountBody S,
          "Tax: ".data ++ formatCurrency 0,
          "Total: ".data ++ formatCurrency ((S : ℚ) / 100 + 0),
          "Paid: ".data ++ '₱' :: amountBody paidN,
          "Change: ".data ++ '₱' :: amountBody chgN],
      lineToItem L ≠ Except.error () := by
    intro L hL
    rw [hassoc] at hL
    rcases List.mem_append.mp hL with h | h
    · rw [lineToItem_none L (hAim L h)]
      simp
    · rcases List.mem_append.mp h with h2 | h2
      · exact hMnoerr L h2
      · rw [lineToItem_none L (h5im L h2)]
        simp
  have hcoll := collectItems_eq_filterMap2 _ hok
  have hfmfull : (((["POS System Management".data,
        "Employee: ".data ++ pyShowOpt employee, now, []] ++ es.map renderLine) ++ [[]])
      ++ ["Subtotal: ".data ++ '₱' :: amountBody S,
          "Tax: ".data ++ formatCurrency 0,
          "Total: ".data ++ formatCurrency ((S : ℚ) / 100 + 0),
          "Paid: ".data ++ '₱' :: amountBody paidN,
          "Change: ".data ++ '₱' :: amountBody chgN]).filterMap
      (fun L => match lineToItem L with
        | .ok o => o
        | .error _ => none) = items := by
    rw [hassoc, filterMap_lineToItem_none _ _ hAim, List.filterMap_append,
      hfm, filterMap_lineToItem_nil _ h5im]
    simp
  rw [hfmfull] at hcoll
  obtain ⟨emp0, hparse⟩ := parse_shape ((["POS System Management".data,
      "Employee: ".data ++ pyShowOpt employee, now, []] ++ es.map renderLine) ++ [[]])
    items S paidN chgN (formatCurrency 0) (formatCurrency ((S : ℚ) / 100 + 0)) hcoll
    (by
      intro L hL
      have hmem := List.mem_of_mem_drop hL
      simp only [List.mem_append, List.mem_cons, List.not_mem_nil, or_false] at hmem
      rcases hmem with ((rfl | rfl | hnoweq | rfl) | hM) | rfl
      · exact ⟨by decide, by decide, by decide⟩
      · rw [show ("Employee: ".data ++ pyShowOpt employee : Line)
          = 'E' :: ("mployee: ".data ++ pyShowOpt employee) from rfl]
        exact scal_nomatch_head 'E' _ (by decide) (by decide) (by decide)
      · rw [hnoweq]
        exact now_scal_nomatch now hnow
      · exact scal_nomatch_nil
      · rw [List.mem_map] at hM
        obtain ⟨e, he, rfl⟩ := hM
        obtain ⟨_, _, _, _, ⟨n, hp⟩, ⟨q, hq⟩⟩ := hes e he
        exact render_scal_nomatch e n q hp hq
      · exact scal_nomatch_nil)
  exact ⟨_, hparse, hmap, rfl, rfl, rfl⟩


/-- C3: the receipt codec round-trips. For every well-formed order — line
entries whose names and codes are free of parentheses and newlines, codes
nonempty and blank-free, prices exact two-decimal amounts, natural
quantities — and every two-decimal paid and change amount, any employee and
any digits-and-underscore timestamp, parsing the lines written by
`save_receipt` succeeds and recovers exactly the item codes, quantities,
unit prices and line totals, and the rendered Subtotal, Paid and Change
values. -/
theorem receipt_round_trip (es : List OrderEntry) (paidN changeN : ℕ)
    (employee : Option Line) (now : Line)
    (hes : ∀ e ∈ es, wfEntry e)
    (hnow : ∀ c ∈ now, c.isDigit = true ∨ c = '_') :
    ∃ p, parseReceiptLines (renderReceipt es ((paidN : ℚ) / 100) ((changeN : ℚ) / 100)
        employee now) = .ok p ∧
      p.items.map (fun it => (it.code, it.qty, it.price, it.total))
        = es.map (fun e => (e.code, e.qty, e.price, e.price * (e.qty : ℚ))) ∧
      p.subtotal = some (order_subtotal es) ∧
      p.paid = some ((paidN : ℚ) / 100) ∧
      p.change = some ((changeN : ℚ) / 100) := by
  obtain ⟨S, hS⟩ := order_subtotal_cent es hes
  exact parse_render_core es S paidN changeN employee now hes hnow hS

theorem receipt_round_trip_witness :
    (∀ e ∈ [(⟨['A', 'R'], "Adobo Rice Bowl".data, (65 : ℚ), (2 : ℤ)⟩ : OrderEntry)],
      wfEntry e) ∧
    (∀ c ∈ "20240101_120000".data, c.isDigit = true ∨ c = '_') ∧
    (∃ p, parseReceiptLines (renderReceipt
          [(⟨['A', 'R'], "Adobo Rice Bowl".data, (65 : ℚ), (2 : ℤ)⟩ : OrderEntry)]
          (((15000 : ℕ) : ℚ) / 100) (((2000 : ℕ) : ℚ) / 100) none
          "20240101_120000".data) = .ok p ∧
      p.items.map (fun it => (it.code, it.qty, it.price, it.total))
        = [(⟨['A', 'R'], "Adobo Rice Bowl".data, (65 : ℚ), (2 : ℤ)⟩ : OrderEntry)].map
            (fun e => (e.code, e.qty, e.price, e.price * (e.qty : ℚ))) ∧
      p.subtotal = some (order_subtotal
        [(⟨['A', 'R'], "Adobo Rice Bowl".data, (65 : ℚ), (2 : ℤ)⟩ : OrderEntry)]) ∧
      p.paid = some (((15000 : ℕ) : ℚ) / 100) ∧
      p.change = some (((2000 : ℕ) : ℚ) / 100)) := by
  have hwf : ∀ e ∈ [(⟨['A', 'R'], "Adobo Rice Bowl".data, (65 : ℚ), (2 : ℤ)⟩ : OrderEntry)],
      wfEntry e := by
    intro e he
    simp only [List.mem_singleton] at he
    subst he
    refine ⟨?_, ?_, by decide, by decide, ⟨6500, by norm_num⟩, ⟨2, by norm_num⟩⟩
    · show ∀ c ∈ ("Adobo Rice Bowl".data : Line), c ≠ '(' ∧ c ≠ ')' ∧ c ≠ '\n'
      decide
    · show ∀ c ∈ (['A', 'R'] : Line), c ≠ '(' ∧ c ≠ ')' ∧ c ≠ '\n'
      decide
  exact ⟨hwf, by decide,
    receipt_round_trip [(⟨['A', 'R'], "Adobo Rice Bowl".data, (65 : ℚ), (2 : ℤ)⟩ : OrderEntry)]
      15000 2000 none "20240101_120000".data hwf (by decide)⟩

end Kit
